import Mathlib

/-!
A verification development for the bigsuds iControl client library
(file src/bigsuds.py of F5Networks/bigsuds).

The Python data and control flow is shallowly embedded:
native/suds values become the inductive type Value, Python exceptions
become the PyExc structure carrying an explicit class tag (so that
class-reassignment and except-clause dispatch can be modelled
faithfully), fallible code returns Except, and the stateful
attribute-memoisation of the BIGIP facade becomes explicit state
passing over a BigipState record.
-/

set_option autoImplicit false

deriving instance DecidableEq for Except

namespace Bigsuds

/-! ## Python/suds values

A Value is a native Python value as seen by bigsuds: None, bool, int,
str, list, dict (modelled as an insertion-ordered association list,
as Python 3 dicts are ordered), or a suds schema object
(suds.sudsobject.Object) with its class name and its ordered keylist
of attributes. -/

inductive Value where
  | vnone : Value
  | vbool (b : Bool) : Value
  | vint (n : Int) : Value
  | vstr (s : String) : Value
  | vlist (xs : List Value) : Value
  | vdict (kvs : List (String × Value)) : Value
  | vsuds (cls : String) (attrs : List (String × Value)) : Value
deriving Repr

/-- Decidable equality for Value (the derive handler struggles with the
nested lists, so it is written out). -/
def Value.beq : Value → Value → Bool
  | .vnone, .vnone => true
  | .vbool a, .vbool b => a == b
  | .vint a, .vint b => a == b
  | .vstr a, .vstr b => a == b
  | .vlist xs, .vlist ys => beqList xs ys
  | .vdict xs, .vdict ys => beqPairs xs ys
  | .vsuds c a, .vsuds d b => c == d && beqPairs a b
  | _, _ => false
where
  beqList : List Value → List Value → Bool
    | [], [] => true
    | x :: xs, y :: ys => Value.beq x y && beqList xs ys
    | _, _ => false
  beqPairs : List (String × Value) → List (String × Value) → Bool
    | [], [] => true
    | (k, x) :: xs, (l, y) :: ys => k == l && Value.beq x y && beqPairs xs ys
    | _, _ => false

mutual
theorem Value.beq_refl : (v : Value) → Value.beq v v = true
  | .vnone => rfl
  | .vbool b => by simp [Value.beq]
  | .vint n => by simp [Value.beq]
  | .vstr s => by simp [Value.beq]
  | .vlist xs => by simp [Value.beq, Value.beq_refl_list xs]
  | .vdict kvs => by simp [Value.beq, Value.beq_refl_pairs kvs]
  | .vsuds c a => by simp [Value.beq, Value.beq_refl_pairs a]

theorem Value.beq_refl_list : (xs : List Value) → Value.beq.beqList xs xs = true
  | [] => rfl
  | x :: xs => by simp [Value.beq.beqList, Value.beq_refl x, Value.beq_refl_list xs]

theorem Value.beq_refl_pairs :
    (xs : List (String × Value)) → Value.beq.beqPairs xs xs = true
  | [] => rfl
  | (k, x) :: xs => by
      simp [Value.beq.beqPairs, Value.beq_refl x, Value.beq_refl_pairs xs]
end

mutual
theorem Value.eq_of_beq : {v w : Value} → Value.beq v w = true → v = w
  | .vnone, .vnone, _ => rfl
  | .vbool a, .vbool b, h => by simpa [Value.beq] using h
  | .vint a, .vint b, h => by simpa [Value.beq] using h
  | .vstr a, .vstr b, h => by simpa [Value.beq] using h
  | .vlist xs, .vlist ys, h => by
      simp only [Value.beq] at h
      simp [Value.eq_of_beq_list h]
  | .vdict xs, .vdict ys, h => by
      simp only [Value.beq] at h
      simp [Value.eq_of_beq_pairs h]
  | .vsuds c a, .vsuds d b, h => by
      simp only [Value.beq, Bool.and_eq_true, beq_iff_eq] at h
      simp [h.1, Value.eq_of_beq_pairs h.2]

theorem Value.eq_of_beq_list : {xs ys : List Value} →
    Value.beq.beqList xs ys = true → xs = ys
  | [], [], _ => rfl
  | x :: xs, y :: ys, h => by
      simp only [Value.beq.beqList, Bool.and_eq_true] at h
      simp [Value.eq_of_beq h.1, Value.eq_of_beq_list h.2]

theorem Value.eq_of_beq_pairs : {xs ys : List (String × Value)} →
    Value.beq.beqPairs xs ys = true → xs = ys
  | [], [], _ => rfl
  | (k, x) :: xs, (l, y) :: ys, h => by
      simp only [Value.beq.beqPairs, Bool.and_eq_true, beq_iff_eq] at h
      simp [h.1.1, Value.eq_of_beq h.1.2, Value.eq_of_beq_pairs h.2]
end

instance : DecidableEq Value := fun v w =>
  if h : Value.beq v w = true then
    Decidable.isTrue (Value.eq_of_beq h)
  else
    Decidable.isFalse (fun he => h (he ▸ Value.beq_refl v))

/-- Character membership in a string (Python: c in s), computed over
the character list so that the kernel can evaluate it. -/
def strContains (s : String) (c : Char) : Bool :=
  s.data.contains c

/-- String prefix test (Python: s.startswith(pre)), computed over the
character lists so that the kernel can evaluate it. -/
def strStartsWith (s pre : String) : Bool :=
  pre.data.isPrefixOf s.data

/-- Python's value.__class__.__name__ for our Value type.  suds builds
the class of a factory-created object so that its name is the
schema-qualified type name; for native values it is the builtin class
name. -/
def pyClassName : Value → String
  | .vnone => "NoneType"
  | .vbool _ => "bool"
  | .vint _ => "int"
  | .vstr _ => "str"
  | .vlist _ => "list"
  | .vdict _ => "dict"
  | .vsuds c _ => c

/-- Python str() of a value, used when the source interpolates a value
into an error message with %s.  Exact for the scalar cases that the
source actually interpolates; containers are approximated (no error
message in the source interpolates a container in a way a claim
depends on). -/
def pyStr : Value → String
  | .vnone => "None"
  | .vbool b => if b then "True" else "False"
  | .vint n => toString n
  | .vstr s => s
  | .vlist _ => "[...]"
  | .vdict _ => "dict(...)"
  | .vsuds c _ => "(" ++ c ++ ")..."

/-- setattr on a suds object keylist (also Python dict assignment
d[k] = v): an existing key keeps its position and gets the new value,
a new key is appended at the end. -/
def pySetattr (attrs : List (String × Value)) (k : String) (v : Value) :
    List (String × Value) :=
  if attrs.any (fun p => p.1 == k) then
    attrs.map (fun p => if p.1 == k then (k, v) else p)
  else
    attrs ++ [(k, v)]

/-- getattr on a suds object keylist / dict lookup: first entry with
the given key. -/
def pyGetattr (attrs : List (String × Value)) (k : String) : Option Value :=
  (attrs.find? (fun p => p.1 == k)).map (fun p => p.2)

/-! ## The Python exception model

Exceptions are modelled as a message plus fault payload plus an
explicit class tag; the class hierarchy declared in bigsuds.py
(together with the relevant library classes) is written out as an
ancestor list, so that both except-clause dispatch and the
class-reassignment idiom of the source are modelled faithfully. -/

inductive ExcClass where
  | exceptionBase
  | operationFailed
  | serverError
  | connectionError
  | parseError
  | methodNotFoundB   -- bigsuds.MethodNotFound
  | argumentError
  | webFault          -- suds.WebFault
  | sudsMethodNotFound
  | urlError
  | badStatusLine
  | saxParseException
  | typeNotFound      -- suds.TypeNotFound
  | transportError    -- suds.transport.TransportError
  | typeErrorCls
  | indexErrorCls
  | attributeErrorCls
deriving DecidableEq, Repr

/-- Proper ancestors of each class, per the class statements in
bigsuds.py and the library classes they extend. -/
def ExcClass.ancestors : ExcClass → List ExcClass
  | .exceptionBase => []
  | .operationFailed => [.exceptionBase]
  | .serverError => [.operationFailed, .webFault, .exceptionBase]
  | .connectionError => [.operationFailed, .exceptionBase]
  | .parseError => [.operationFailed, .exceptionBase]
  | .methodNotFoundB => [.operationFailed, .sudsMethodNotFound, .exceptionBase]
  | .argumentError => [.operationFailed, .exceptionBase]
  | .webFault => [.exceptionBase]
  | .sudsMethodNotFound => [.exceptionBase]
  | .urlError => [.exceptionBase]
  | .badStatusLine => [.exceptionBase]
  | .saxParseException => [.exceptionBase]
  | .typeNotFound => [.exceptionBase]
  | .transportError => [.exceptionBase]
  | .typeErrorCls => [.exceptionBase]
  | .indexErrorCls => [.exceptionBase]
  | .attributeErrorCls => [.exceptionBase]

/-- A Python exception object: its current class (mutable in Python,
hence separate from the payload), its message, and an optional SOAP
fault payload (for WebFault and what is reassigned from it). -/
structure PyExc where
  cls : ExcClass
  msg : String
  fault : Option Value
deriving DecidableEq, Repr

/-- isinstance(e, C): the object's class is C or a subclass of C. -/
def PyExc.isInst (e : PyExc) (c : ExcClass) : Bool :=
  e.cls == c || e.cls.ancestors.contains c

/-! ## The Result Normalizer

_NativeResultProcessor._convert_to_native_type, translated clause for
clause.  The isinstance checks run in source order: list, SudsObject,
string, integer.  A Bool hits the six.integer_types check (bool is a
subclass of int in Python), so int(value) turns it into 1 or 0; a
dict hits no check and falls through unchanged. -/

mutual
def convertToNativeType : Value → Value
  | .vlist xs => .vlist (convertList xs)
  | .vsuds _ attrs => .vdict (convertAttrs attrs [])
  | .vstr s => .vstr s
  | .vbool b => .vint (if b then 1 else 0)
  | .vint n => .vint n
  | .vdict kvs => .vdict kvs
  | .vnone => .vnone

def convertList : List Value → List Value
  | [] => []
  | x :: rest => convertToNativeType x :: convertList rest

/-- The d = dictionary then d[attr_name] = convert(attr_value) loop over
the suds object's (name, value) pairs, in keylist order. -/
def convertAttrs : List (String × Value) → List (String × Value) →
    List (String × Value)
  | [], acc => acc
  | (n, v) :: rest, acc =>
      convertAttrs rest (pySetattr acc n (convertToNativeType v))
end

/-! ## The schema / suds factory model

A schema maps qualified type names to the description the factory and
the metadata inspection see: the keylist of a freshly created object
(attribute name and the default value suds fills in: None for
primitive-typed elements, a nested schema object for complex ones),
and the sxtype attribute metadata used by _array_type.  A meta field
of none models the AttributeError branch of
obj.__metadata__.sxtype.attributes(). -/

structure MetaAttr where
  name : String
  /-- The aty annotation (the soap-enc arrayType element type), when
  present; none models an attribute object without an aty field
  (AttributeError on each[0].aty). -/
  aty : Option (List String)
deriving DecidableEq, Repr

structure TypeDesc where
  attrs : List (String × Value)
  meta : Option (List MetaAttr)
deriving DecidableEq, Repr

def Schema : Type := List (String × TypeDesc)

def lookupType (sch : Schema) (t : String) : Option TypeDesc :=
  (sch.find? (fun p => p.1 == t)).map (fun p => p.2)

/-- _DefaultArgProcessor._array_type.  Returns the element type name if
the created object is a soap-enc array, none otherwise; an arrayType
metadata attribute whose aty list is empty raises IndexError
(each[0].aty[0] is only guarded by except AttributeError). -/
def arrayTypeOf (td : TypeDesc) : Except PyExc (Option String) :=
  match td.meta with
  | none => .ok none
  | some attrs => loop attrs
where
  loop : List MetaAttr → Except PyExc (Option String)
    | [] => .ok none
    | a :: rest =>
        if a.name == "arrayType" then
          match a.aty with
          | none => loop rest
          | some [] => .error ⟨.indexErrorCls, "tuple index out of range", none⟩
          | some (x :: _) => .ok (some x)
        else loop rest

/-! ## The Type Marshaller

_DefaultArgProcessor._process_arg, translated clause for clause, with
the suds factory realised over a Schema.  processDictAttrs is the
for name, value in six.iteritems(value) loop of the dict branch
(threading the mutated object), processList is the list comprehension
of the array branch. -/

def isSudsVal : Value → Bool
  | .vsuds _ _ => true
  | _ => false

mutual
def processArg (sch : Schema) (argType : String) (value : Value) :
    Except PyExc Value :=
  if isSudsVal value then .ok value
  else if !strContains argType '.' && !strContains argType ':' then .ok value
  else
    match lookupType sch argType with
    | none => .ok value   -- TypeNotFound: log and pass through
    | some td =>
      match value with
      | .vdict kvs => do
          let finalAttrs ← processDictAttrs sch kvs argType td.attrs
          return .vsuds argType finalAttrs
      | v => processArgTail sch argType td v
termination_by 2 * sizeOf value + 1
decreasing_by all_goals (simp_wf <;> omega)

/-- The tail of _process_arg after the dict branch: array handling,
the no-attribute passthrough, and the enum membership check. -/
def processArgTail (sch : Schema) (argType : String) (td : TypeDesc)
    (value : Value) : Except PyExc Value :=
  match arrayTypeOf td with
  | .error e => .error e
  | .ok (some elemType) =>
      match value with
      | .vstr s =>
          .error ⟨.argumentError,
            argType ++ " needs an iterable, but was specified as a " ++
              "string: \"" ++ s ++ "\"", none⟩
      | .vlist xs => do
          let items ← processList sch elemType xs
          return .vsuds argType (pySetattr td.attrs "items" (.vlist items))
      | _ =>
          -- for x in value over a non-iterable (int, None, ...)
          .error ⟨.typeErrorCls,
            "'" ++ pyClassName value ++ "' object is not iterable", none⟩
  | .ok none =>
      if td.attrs.isEmpty then .ok value
      else if (match value with
               | .vstr s => td.attrs.any (fun p => p.1 == s)
               | _ => false) then
        .ok value
      else
        .error ⟨.argumentError,
          "\"" ++ pyStr value ++ "\" is not a valid value for " ++
            argType ++ ", expecting: " ++
            String.intercalate ", " (td.attrs.map (fun p => p.1)), none⟩
termination_by 2 * sizeOf value
decreasing_by all_goals simp_wf

def processDictAttrs (sch : Schema) (kvs : List (String × Value))
    (cls : String) (obj : List (String × Value)) :
    Except PyExc (List (String × Value)) :=
  match kvs with
  | [] => .ok obj
  | (name, v) :: rest =>
      match pyGetattr obj name with
      | none =>
          .error ⟨.argumentError,
            "\"" ++ name ++ "\" is not a valid attribute for " ++ cls ++
              ", expecting: " ++
              String.intercalate ", " (obj.map (fun p => p.1)), none⟩
      | some dv => do
          let nv ← processArg sch (pyClassName dv) v
          processDictAttrs sch rest cls (pySetattr obj name nv)
termination_by 2 * sizeOf kvs
decreasing_by all_goals (simp_wf <;> omega)

def processList (sch : Schema) (elemType : String) (xs : List Value) :
    Except PyExc (List Value) :=
  match xs with
  | [] => .ok []
  | x :: rest => do
      let y ← processArg sch elemType x
      let ys ← processList sch elemType rest
      return y :: ys
termination_by 2 * sizeOf xs
decreasing_by all_goals (simp_wf <;> omega)
end

/-! ## ArgSpec construction and argument-count/name validation

_DefaultArgProcessor._make_argspec, _method_string, _process_args and
_process_kwargs.  A method is its name plus the ordered
(part name, part type) list from the WSDL binding
(part.type[0] is the unqualified type name). -/

structure Part where
  name : String
  type0 : String
deriving DecidableEq, Repr

structure MethodDesc where
  name : String
  parts : List Part
deriving DecidableEq, Repr

def makeArgspec (m : MethodDesc) : List (String × String) :=
  m.parts.map (fun p => (p.name, p.type0))

def methodString (m : MethodDesc) : String :=
  m.name ++ "(" ++
    String.intercalate ", " (m.parts.map (fun p => p.type0 ++ " " ++ p.name))
    ++ ")"

/-- One iteration of the _process_args loop: argspec[i] raises
IndexError past the end, and an IndexError escaping _process_arg is
caught by the same except clause; both become the Too many arguments
ArgumentError. -/
def processOnePos (sch : Schema) (spec : List (String × String))
    (m : MethodDesc) (i : Nat) (arg : Value) : Except PyExc Value :=
  let inner : Except PyExc Value :=
    match spec.get? i with
    | none => .error ⟨.indexErrorCls, "list index out of range", none⟩
    | some (_, t) => processArg sch t arg
  match inner with
  | .error e =>
      if e.isInst .indexErrorCls then
        .error ⟨.argumentError,
          "Too many arguments passed to method: " ++ methodString m, none⟩
      else .error e
  | .ok v => .ok v

def processArgsAux (sch : Schema) (spec : List (String × String))
    (m : MethodDesc) (i : Nat) : List Value → Except PyExc (List Value)
  | [] => .ok []
  | a :: rest => do
      let v ← processOnePos sch spec m i a
      let vs ← processArgsAux sch spec m (i + 1) rest
      return v :: vs

/-- _process_args. -/
def processArgsFn (sch : Schema) (m : MethodDesc) (args : List Value) :
    Except PyExc (List Value) :=
  processArgsAux sch (makeArgspec m) m 0 args

/-- One iteration of the _process_kwargs loop:
[x[1] for x in argspec if x[0] == name][0] raises IndexError when the
name is absent, and an IndexError escaping _process_arg is caught by
the same except clause; both become the Invalid keyword argument
ArgumentError. -/
def processOneKw (sch : Schema) (spec : List (String × String))
    (m : MethodDesc) (name : String) (value : Value) : Except PyExc Value :=
  let inner : Except PyExc Value :=
    match (spec.filter (fun x => x.1 == name)).head? with
    | none => .error ⟨.indexErrorCls, "list index out of range", none⟩
    | some (_, t) => processArg sch t value
  match inner with
  | .error e =>
      if e.isInst .indexErrorCls then
        .error ⟨.argumentError,
          "Invalid keyword argument \"" ++ name ++ "\" passed to method: "
            ++ methodString m, none⟩
      else .error e
  | .ok v => .ok v

def processKwargsAux (sch : Schema) (spec : List (String × String))
    (m : MethodDesc) :
    List (String × Value) → Except PyExc (List (String × Value))
  | [] => .ok []
  | (n, v) :: rest => do
      let nv ← processOneKw sch spec m n v
      let tail ← processKwargsAux sch spec m rest
      return (n, nv) :: tail

/-- _process_kwargs. -/
def processKwargsFn (sch : Schema) (m : MethodDesc)
    (kwargs : List (String × Value)) :
    Except PyExc (List (String × Value)) :=
  processKwargsAux sch (makeArgspec m) m kwargs

/-- _DefaultArgProcessor.process: positional arguments are processed
before keyword arguments. -/
def processAll (sch : Schema) (m : MethodDesc) (args : List Value)
    (kwargs : List (String × Value)) :
    Except PyExc (List Value × List (String × Value)) := do
  let a ← processArgsFn sch m args
  let k ← processKwargsFn sch m kwargs
  return (a, k)

/-! ## The Method Invoker and its failure translation

The underlying suds call either returns a value or raises some
exception; wrapped_method translates the raised exception through the
except clauses, in source order.  str() of the caught library
exceptions is their message. -/

inductive SudsOutcome where
  | success (v : Value)
  | raised (e : PyExc)
deriving DecidableEq, Repr

/-- The except-clause cascade of wrapped_method, in source order.
MethodNotFound and WebFault are translated by reassigning e.__class__
in place (message and fault payload stay untouched); the others raise
fresh exceptions.  An exception matching no clause propagates
unchanged. -/
def translateExc (e : PyExc) : PyExc :=
  if e.isInst .attributeErrorCls then
    ⟨.connectionError,
      "iControl call failed, possibly invalid credentials.", none⟩
  else if e.isInst .sudsMethodNotFound then { e with cls := .methodNotFoundB }
  else if e.isInst .webFault then { e with cls := .serverError }
  else if e.isInst .urlError then
    ⟨.connectionError, "URLError: " ++ e.msg, none⟩
  else if e.isInst .badStatusLine then
    ⟨.connectionError, "BadStatusLine: " ++ e.msg, none⟩
  else if e.isInst .saxParseException then
    ⟨.parseError,
      "Failed to parse the BIGIP's response. This was likely caused " ++
        "by a 500 error message.", none⟩
  else e

/-- wrapped_method: process the arguments, dispatch, translate a
raised exception, normalize a successful result.  The second
component records whether the underlying suds method was invoked
(the call happens only after argument processing succeeds; an
argument-processing exception propagates before dispatch). -/
def wrappedMethod (sch : Schema) (m : MethodDesc)
    (call : List Value → List (String × Value) → SudsOutcome)
    (args : List Value) (kwargs : List (String × Value)) :
    Except PyExc Value × Bool :=
  match processAll sch m args kwargs with
  | .error e => (.error e, false)
  | .ok (a, k) =>
      match call a k with
      | .success v => (.ok (convertToNativeType v), true)
      | .raised e => (.error (translateExc e), true)

/-! ## The Transactional Scope

Transaction.__enter__ / __exit__ together with the with-statement
semantics: start_transaction on entry (a failure there prevents the
body and __exit__ from running); on clean exit submit_transaction; on
exceptional exit rollback_transaction, where except ServerError: pass
suppresses only ServerError and __exit__ never returns a truthy
value, so the in-scope exception is re-raised.  A non-ServerError
exception raised by the rollback supersedes the in-scope exception
during unwinding, carrying it as its chained context (the second
component of the error). -/

structure TxTrace where
  result : Except (PyExc × Option PyExc) Value
  submitted : Bool
  rollbackAttempted : Bool
deriving Repr

def runTransaction (startR : Except PyExc Unit) (body : Except PyExc Value)
    (submitR : Except PyExc Unit) (rollbackR : Except PyExc Unit) :
    TxTrace :=
  match startR with
  | .error e => ⟨.error (e, none), false, false⟩
  | .ok _ =>
    match body with
    | .ok v =>
        match submitR with
        | .ok _ => ⟨.ok v, true, false⟩
        | .error e => ⟨.error (e, none), true, false⟩
    | .error e =>
        match rollbackR with
        | .ok _ => ⟨.error (e, none), false, true⟩
        | .error r =>
            if r.isInst .serverError then ⟨.error (e, none), false, true⟩
            else ⟨.error (r, some e), false, true⟩

/-! ## The Client Facade and Namespace Resolver state machine

BIGIP.__getattr__, _Namespace.__getattr__ and BIGIP._create_client,
with the attribute memoisation made explicit: the facade state holds
the instance __dict__ (attribute name to stored object), a log of
every WSDL fetch attempted (get_client constructing a suds Client is
the fetch), and a counter handing out allocation identities so that
object identity of cache entries is expressible.  The network is an
environment mapping WSDL names to the outcome of fetching them. -/

/-- A schema client wrapper (_ClientWrapper) as cached by a
namespace: its allocation identity and the WSDL name it was built
for. -/
structure ClientObj where
  id : Nat
  wsdlName : String
deriving DecidableEq, Repr

/-- A _Namespace object: its allocation identity, its name, and its
memoised clients (its own instance __dict__). -/
structure NsObj where
  id : Nat
  name : String
  clients : List (String × ClientObj)
deriving DecidableEq, Repr

/-- An object stored in (or produced by) attribute lookup on the
facade: a namespace, a client, a plain field such as _hostname, or a
dunder attribute resolved on the superclass. -/
inductive PyObj where
  | ns (n : NsObj)
  | client (c : ClientObj)
  | field (s : String)
  | dunderObj (attrName : String)
deriving DecidableEq, Repr

structure BigipState where
  attrs : List (String × PyObj)
  fetchLog : List String
  nextId : Nat
deriving DecidableEq, Repr

/-- What the appliance does when a given WSDL is fetched. -/
inductive FetchOutcome where
  | okFetch
  | saxError (msg : String)
  | urlErrorF (msg : String)
  | transportErrorF (msg : String)
deriving DecidableEq, Repr

def Env : Type := String → FetchOutcome

def lookupAttr (attrs : List (String × PyObj)) (k : String) : Option PyObj :=
  (attrs.find? (fun p => p.1 == k)).map (fun p => p.2)

def setAttrObj (attrs : List (String × PyObj)) (k : String) (o : PyObj) :
    List (String × PyObj) :=
  if attrs.any (fun p => p.1 == k) then
    attrs.map (fun p => if p.1 == k then (k, o) else p)
  else
    attrs ++ [(k, o)]

/-- BIGIP._create_client: get_client fetches and parses the WSDL
(always logged as an attempted fetch); SAXParseException becomes
ParseError naming the offending namespace, URLError and
TransportError become ConnectionError with the underlying message.
On success a fresh client wrapper is allocated. -/
def createClient (env : Env) (s : BigipState) (wsdlName : String) :
    Except PyExc ClientObj × BigipState :=
  let s₁ : BigipState := { s with fetchLog := s.fetchLog ++ [wsdlName] }
  match env wsdlName with
  | .okFetch =>
      (.ok ⟨s₁.nextId, wsdlName⟩, { s₁ with nextId := s₁.nextId + 1 })
  | .saxError m =>
      (.error ⟨.parseError,
        m ++ "\nFailed to parse wsdl. Is \"" ++ wsdlName ++
          "\" a valid namespace?", none⟩, s₁)
  | .urlErrorF m => (.error ⟨.connectionError, m, none⟩, s₁)
  | .transportErrorF m => (.error ⟨.connectionError, m, none⟩, s₁)

/-- Python's split with maxsplit 1 on an underscore: the prefix before
the first underscore and the remainder after it. -/
def pySplitUnder (s : String) : String × String :=
  let pre := s.data.takeWhile (fun c => c ≠ '_')
  (String.mk pre, String.mk (s.data.drop (pre.length + 1)))

/-- _Namespace.__getattr__ on the namespace stored at facade
attribute key: normal lookup in the namespace's __dict__ first; a
miss creates (and memoises) a client for name.attr.  A failed client
creation is not memoised.  Dunder names resolve on the superclass. -/
def nsGetattrAt (env : Env) (s : BigipState) (key attr : String) :
    Except PyExc PyObj × BigipState :=
  match lookupAttr s.attrs key with
  | some (.ns n) =>
      if strStartsWith attr "__" then (.ok (.dunderObj attr), s)
      else
        match (n.clients.find? (fun p => p.1 == attr)).map (fun p => p.2) with
        | some c => (.ok (.client c), s)
        | none =>
            let wsdlName := n.name ++ "." ++ attr
            match createClient env s wsdlName with
            | (.error e, s₁) => (.error e, s₁)
            | (.ok c, s₁) =>
                let n₂ : NsObj := { n with clients := n.clients ++ [(attr, c)] }
                (.ok (.client c),
                 { s₁ with attrs := setAttrObj s₁.attrs key (.ns n₂) })
  | _ =>
      (.error ⟨.attributeErrorCls, "no namespace at " ++ key, none⟩, s)

/-- Attribute lookup on the facade for a name without an underscore:
Python finds a memoised instance attribute without calling
__getattr__; otherwise __getattr__ resolves dunder names on the
superclass and creates (and memoises) a _Namespace for anything
else. -/
def bigipGetattrBase (_env : Env) (s : BigipState) (attr : String) :
    Except PyExc PyObj × BigipState :=
  match lookupAttr s.attrs attr with
  | some o => (.ok o, s)
  | none =>
      if strStartsWith attr "__" then (.ok (.dunderObj attr), s)
      else
        let n : NsObj := ⟨s.nextId, attr, []⟩
        (.ok (.ns n),
         { s with attrs := setAttrObj s.attrs attr (.ns n),
                  nextId := s.nextId + 1 })

/-- BIGIP.__getattr__ together with Python's normal attribute lookup:
a memoised attribute is returned as-is; a dunder name goes to the
superclass; a missing name containing an underscore is reinterpreted
as two hops (the part before the first underscore, then the rest,
the rest resolved on the resulting namespace without further
splitting — the prefix before the first underscore never itself
contains an underscore, so its lookup is bigipGetattrBase); any other
missing name creates a namespace.  env drives the WSDL fetches of the
second hop. -/
def bigipGetattr (env : Env) (s : BigipState) (attr : String) :
    Except PyExc PyObj × BigipState :=
  match lookupAttr s.attrs attr with
  | some o => (.ok o, s)
  | none =>
      if strStartsWith attr "__" then (.ok (.dunderObj attr), s)
      else if strContains attr '_' then
        let fs := pySplitUnder attr
        match bigipGetattrBase env s fs.1 with
        | (.error e, s₁) => (.error e, s₁)
        | (.ok (.ns _), s₁) => nsGetattrAt env s₁ fs.1 fs.2
        | (.ok _, s₁) =>
            -- getattr on a non-namespace object (a client performs
            -- suds method lookup; a field has no such attribute):
            -- outside the resolver, modelled as opaque failure.
            (.error ⟨.attributeErrorCls,
              "getattr on non-namespace object", none⟩, s₁)
      else
        bigipGetattrBase env s attr

/-- Resolution of a dotted two-segment namespace path
(bigip.A.B): first hop on the facade, second hop on the resulting
namespace. -/
def resolvePath (env : Env) (s : BigipState) (p : String × String) :
    Except PyExc ClientObj × BigipState :=
  match bigipGetattr env s p.1 with
  | (.error e, s₁) => (.error e, s₁)
  | (.ok (.ns _), s₁) =>
      match nsGetattrAt env s₁ p.1 p.2 with
      | (.ok (.client c), s₂) => (.ok c, s₂)
      | (.ok _, s₂) =>
          (.error ⟨.attributeErrorCls, "not a client", none⟩, s₂)
      | (.error e, s₂) => (.error e, s₂)
  | (.ok _, s₁) =>
      (.error ⟨.attributeErrorCls, "not a namespace", none⟩, s₁)

/-- A fresh facade right after __init__ (the configuration fields are
irrelevant to resolution and are omitted from the attribute
dictionary; they are all single-underscore names the claims never
look up). -/
def freshBigip : BigipState := ⟨[], [], 0⟩

/-- A sequence of path resolutions against one facade instance. -/
def resolveSeq (env : Env) (s : BigipState) :
    List (String × String) → BigipState
  | [] => s
  | p :: rest => resolveSeq env (resolvePath env s p).2 rest

/-- The dotted WSDL name a two-segment path fetches. -/
def dottedName (p : String × String) : String := p.1 ++ "." ++ p.2

/-! ## Auxiliary predicates for the normalizer claims -/

/-! noDict: no Python dict occurs anywhere in the value.  suds return
values are built from schema objects, lists, text, numbers and None;
native dicts can only enter a value tree through caller-supplied
arguments, never through a response. -/
mutual
def noDict : Value → Bool
  | .vnone => true
  | .vbool _ => true
  | .vint _ => true
  | .vstr _ => true
  | .vdict _ => false
  | .vlist xs => noDictList xs
  | .vsuds _ attrs => noDictPairs attrs

def noDictList : List Value → Bool
  | [] => true
  | x :: rest => noDict x && noDictList rest

def noDictPairs : List (String × Value) → Bool
  | [] => true
  | (_, v) :: rest => noDict v && noDictPairs rest
end

/-! noBool: no boolean occurs anywhere in the value. -/
mutual
def noBool : Value → Bool
  | .vnone => true
  | .vbool _ => false
  | .vint _ => true
  | .vstr _ => true
  | .vdict kvs => noBoolPairs kvs
  | .vlist xs => noBoolList xs
  | .vsuds _ attrs => noBoolPairs attrs

def noBoolList : List Value → Bool
  | [] => true
  | x :: rest => noBool x && noBoolList rest

def noBoolPairs : List (String × Value) → Bool
  | [] => true
  | (_, v) :: rest => noBool v && noBoolPairs rest
end

/-! ## Helper lemmas -/

theorem convertList_eq_map (xs : List Value) :
    convertList xs = xs.map convertToNativeType := by
  induction xs with
  | nil => rfl
  | cons x rest ih => simp [convertList, ih]

theorem pySetattr_of_not_mem (acc : List (String × Value)) (n : String)
    (v : Value) (h : acc.all (fun p => p.1 ≠ n)) :
    pySetattr acc n v = acc ++ [(n, v)] := by
  unfold pySetattr
  rw [if_neg]
  simp only [List.all_eq_true, decide_eq_true_eq] at h
  simp only [List.any_eq_true, beq_iff_eq, not_exists, not_and]
  intro p hp
  exact h p hp

/-- The convertAttrs fold over a duplicate-free keylist, generalized
over the accumulated dictionary. -/
theorem convertAttrs_eq_map_aux : ∀ (attrs acc : List (String × Value)),
    (attrs.map Prod.fst).Nodup →
    (∀ p ∈ acc, ∀ q ∈ attrs, p.1 ≠ q.1) →
    convertAttrs attrs acc =
      acc ++ attrs.map (fun p => (p.1, convertToNativeType p.2))
  | [], acc, _, _ => by simp [convertAttrs]
  | (n, v) :: rest, acc, hnd, hdisj => by
      have hnotmem : acc.all (fun p => p.1 ≠ n) := by
        simp only [List.all_eq_true, decide_eq_true_eq]
        intro p hp
        exact hdisj p hp (n, v) (List.mem_cons_self _ _)
      rw [convertAttrs, pySetattr_of_not_mem acc n (convertToNativeType v)
            hnotmem]
      rw [List.map_cons, List.nodup_cons] at hnd
      have hdisj₂ : ∀ p ∈ acc ++ [(n, convertToNativeType v)],
          ∀ q ∈ rest, p.1 ≠ q.1 := by
        intro p hp q hq
        rcases List.mem_append.mp hp with hp₁ | hp₂
        · exact hdisj p hp₁ q (List.mem_cons_of_mem _ hq)
        · have hpn : p = (n, convertToNativeType v) := by
            simpa using hp₂
          subst hpn
          intro hcontra
          exact hnd.1 (hcontra ▸ List.mem_map_of_mem Prod.fst hq)
      rw [convertAttrs_eq_map_aux rest (acc ++ [(n, convertToNativeType v)])
            hnd.2 hdisj₂]
      simp

theorem convertAttrs_eq_map (attrs : List (String × Value))
    (hnd : (attrs.map Prod.fst).Nodup) :
    convertAttrs attrs [] =
      attrs.map (fun p => (p.1, convertToNativeType p.2)) := by
  simpa using convertAttrs_eq_map_aux attrs [] hnd (by simp)

theorem noBoolPairs_append (a b : List (String × Value)) :
    noBoolPairs (a ++ b) = (noBoolPairs a && noBoolPairs b) := by
  induction a with
  | nil => simp [noBoolPairs]
  | cons hd rest ih =>
      obtain ⟨n, v⟩ := hd
      simp [noBoolPairs, ih, Bool.and_assoc]

theorem noBoolPairs_map_update (n : String) (v : Value)
    (hv : noBool v = true) :
    ∀ (acc : List (String × Value)), noBoolPairs acc = true →
    noBoolPairs (acc.map (fun p => if p.1 == n then (n, v) else p)) = true
  | [], _ => rfl
  | (k, w) :: rest, hacc => by
      rw [noBoolPairs, Bool.and_eq_true] at hacc
      have hrest := noBoolPairs_map_update n v hv rest hacc.2
      by_cases hk : (k == n) = true
      · simp only [List.map_cons, hk, if_pos]
        rw [noBoolPairs, Bool.and_eq_true]
        exact ⟨hv, hrest⟩
      · simp only [List.map_cons, hk, Bool.false_eq_true, if_neg,
          not_false_eq_true]
        rw [noBoolPairs, Bool.and_eq_true]
        exact ⟨hacc.1, hrest⟩

theorem noBoolPairs_pySetattr (acc : List (String × Value)) (n : String)
    (v : Value) (hacc : noBoolPairs acc = true) (hv : noBool v = true) :
    noBoolPairs (pySetattr acc n v) = true := by
  unfold pySetattr
  by_cases hmem : acc.any (fun p => p.1 == n)
  · rw [if_pos hmem]
    exact noBoolPairs_map_update n v hv acc hacc
  · rw [if_neg hmem, noBoolPairs_append, Bool.and_eq_true]
    exact ⟨hacc, by simp [noBoolPairs, hv]⟩

mutual
theorem noBool_convert : ∀ (v : Value), noDict v = true →
    noBool (convertToNativeType v) = true
  | .vnone, _ => rfl
  | .vbool b, _ => by cases b <;> rfl
  | .vint _, _ => rfl
  | .vstr _, _ => rfl
  | .vdict _, h => by simp [noDict] at h
  | .vlist xs, h => by
      rw [convertToNativeType, noBool]
      exact noBool_convertList xs (by simpa [noDict] using h)
  | .vsuds _ attrs, h => by
      rw [convertToNativeType, noBool]
      exact noBool_convertAttrs attrs [] (by simpa [noDict] using h) rfl

theorem noBool_convertList : ∀ (xs : List Value), noDictList xs = true →
    noBoolList (convertList xs) = true
  | [], _ => rfl
  | x :: rest, h => by
      rw [noDictList, Bool.and_eq_true] at h
      rw [convertList, noBoolList, Bool.and_eq_true]
      exact ⟨noBool_convert x h.1, noBool_convertList rest h.2⟩

theorem noBool_convertAttrs : ∀ (attrs : List (String × Value))
    (acc : List (String × Value)), noDictPairs attrs = true →
    noBoolPairs acc = true → noBoolPairs (convertAttrs attrs acc) = true
  | [], _, _, hacc => hacc
  | (n, v) :: rest, acc, h, hacc => by
      rw [noDictPairs, Bool.and_eq_true] at h
      rw [convertAttrs]
      exact noBool_convertAttrs rest _ h.2
        (noBoolPairs_pySetattr acc n _ hacc (noBool_convert v h.1))
end

/-! ## Claim theorems -/

/-- C4: the Result Normalizer converts recursively: sequences become
ordered sequences of normalized elements; a schema object becomes a
mapping from attribute name to normalized value in the object's
attribute order (under the always-true suds invariant that a keylist
has no duplicate names), so every attribute appears in the output
mapping and nothing else is added; text stays a plain string;
integer-like values (including booleans, which satisfy the check)
become plain integers; anything else (None, a dict) passes through
unchanged. -/
theorem C4_normalizer_shape :
    (∀ xs, convertToNativeType (.vlist xs) =
        .vlist (xs.map convertToNativeType)) ∧
    (∀ t attrs, (attrs.map Prod.fst).Nodup →
        convertToNativeType (.vsuds t attrs) =
          .vdict (attrs.map (fun p => (p.1, convertToNativeType p.2)))) ∧
    (∀ s, convertToNativeType (.vstr s) = .vstr s) ∧
    (∀ n, convertToNativeType (.vint n) = .vint n) ∧
    (∀ b, convertToNativeType (.vbool b) = .vint (if b then 1 else 0)) ∧
    convertToNativeType .vnone = .vnone ∧
    (∀ kvs, convertToNativeType (.vdict kvs) = .vdict kvs) := by
  refine ⟨?_, ?_, ?_, ?_, ?_, rfl, ?_⟩
  · intro xs
    rw [convertToNativeType, convertList_eq_map]
  · intro t attrs hnd
    rw [convertToNativeType, convertAttrs_eq_map attrs hnd]
  · intro s; rfl
  · intro n; rfl
  · intro b; rfl
  · intro kvs; rfl

/-- Witness for C4 at a concrete schema object. -/
theorem C4_normalizer_shape_witness :
    convertToNativeType
        (.vsuds "T.T" [("a", .vstr "x"), ("b", .vint 3)]) =
      .vdict [("a", .vstr "x"), ("b", .vint 3)] := by
  have h := C4_normalizer_shape.2.1 "T.T"
    [("a", .vstr "x"), ("b", .vint 3)] (by decide)
  simpa using h

/-- C10: booleans in a response satisfy the integer-like isinstance
check, so the Normalizer returns the plain integer 1 or 0 for them,
and no value a wrapped method returns contains a boolean (responses
coming from the suds layer never contain native dicts, the only
constructor the Normalizer passes through that could hide one). -/
theorem C10_no_booleans :
    (∀ b, convertToNativeType (.vbool b) = .vint (if b then 1 else 0)) ∧
    (∀ v, noDict v = true → noBool (convertToNativeType v) = true) := by
  exact ⟨fun b => by cases b <;> rfl, noBool_convert⟩

/-- Witness for C10 at a concrete response containing booleans. -/
theorem C10_no_booleans_witness :
    noDict (.vsuds "T.T" [("up", .vbool true),
        ("xs", .vlist [.vbool false, .vint 2])]) = true ∧
    noBool (convertToNativeType (.vsuds "T.T" [("up", .vbool true),
        ("xs", .vlist [.vbool false, .vint 2])])) = true := by
  refine ⟨by decide, C10_no_booleans.2 _ (by decide)⟩

/-- C5: the Transactional Scope starts a transaction on entry (a
start failure prevents body, submit and rollback alike); a clean
exit submits; an exceptional exit attempts rollback, suppressing
exactly a ServerError raised by the rollback (the in-scope exception
is then re-raised unchanged); a non-ServerError rollback failure
propagates, carrying the in-scope exception as its chained context —
so the in-scope exception always survives, either as the propagated
exception itself or as the context of the rollback failure, and is
never suppressed by the scope. -/
theorem C5_transaction_scope (body : Except PyExc Value)
    (submitR rollbackR : Except PyExc Unit) :
    (∀ e, runTransaction (.error e) body submitR rollbackR =
        ⟨.error (e, none), false, false⟩) ∧
    (∀ v, body = .ok v →
        runTransaction (.ok ()) body submitR rollbackR =
          ⟨(match submitR with
            | .ok _ => .ok v
            | .error e => .error (e, none)), true, false⟩) ∧
    (∀ e, body = .error e →
        (runTransaction (.ok ()) body submitR rollbackR).rollbackAttempted
          = true ∧
        (rollbackR = .ok () →
          runTransaction (.ok ()) body submitR rollbackR =
            ⟨.error (e, none), false, true⟩) ∧
        (∀ r, rollbackR = .error r → r.isInst .serverError = true →
          runTransaction (.ok ()) body submitR rollbackR =
            ⟨.error (e, none), false, true⟩) ∧
        (∀ r, rollbackR = .error r → r.isInst .serverError = false →
          runTransaction (.ok ()) body submitR rollbackR =
            ⟨.error (r, some e), false, true⟩) ∧
        (∃ prim ctx,
          (runTransaction (.ok ()) body submitR rollbackR).result =
            .error (prim, ctx) ∧ (prim = e ∨ ctx = some e))) := by
  refine ⟨fun e => rfl, ?_, ?_⟩
  · intro v hv
    subst hv
    cases submitR <;> rfl
  · intro e he
    subst he
    refine ⟨?_, ?_, ?_, ?_, ?_⟩
    · cases rollbackR with
      | ok u => rfl
      | error r =>
          by_cases hr : r.isInst .serverError = true <;>
            simp [runTransaction, hr]
    · intro hr
      subst hr
      rfl
    · intro r hr hsrv
      subst hr
      simp [runTransaction, hsrv]
    · intro r hr hsrv
      subst hr
      simp [runTransaction, hsrv]
    · cases rollbackR with
      | ok u => exact ⟨e, none, rfl, Or.inl rfl⟩
      | error r =>
          by_cases hr : r.isInst .serverError = true
          · exact ⟨e, none, by simp [runTransaction, hr], Or.inl rfl⟩
          · refine ⟨r, some e, by simp [runTransaction, hr], Or.inr rfl⟩

/-- Witness for C5: the spec scenario — an ArgumentError inside the
scope with a successful rollback propagates the ArgumentError. -/
theorem C5_transaction_scope_witness :
    runTransaction (.ok ()) (.error ⟨.argumentError, "bad args", none⟩)
        (.ok ()) (.ok ()) =
      ⟨.error (⟨.argumentError, "bad args", none⟩, none), false, true⟩ :=
  ((C5_transaction_scope (.error ⟨.argumentError, "bad args", none⟩)
      (.ok ()) (.ok ())).2.2 ⟨.argumentError, "bad args", none⟩ rfl).2.1 rfl

/-- C1: with argument processing out of the way, each of the six
underlying failure conditions of the remote call is translated
exactly as mandated: a missing remote method raises MethodNotFound
(class reassigned, message and payload kept); an appliance WebFault
raises ServerError carrying the fault payload; a URLError raises
ConnectionError; a BadStatusLine raises ConnectionError; a SOAP/XML
parse failure raises ParseError; an AttributeError during dispatch
raises ConnectionError noting likely invalid credentials.  The
equalities are exact, so no other outcome can occur for these
conditions. -/
theorem C1_failure_translation (sch : Schema) (m : MethodDesc)
    (args : List Value) (kwargs : List (String × Value))
    (a : List Value) (k : List (String × Value))
    (hok : processAll sch m args kwargs = .ok (a, k)) :
    (∀ msg f, wrappedMethod sch m
        (fun _ _ => .raised ⟨.sudsMethodNotFound, msg, f⟩) args kwargs =
        (.error ⟨.methodNotFoundB, msg, f⟩, true)) ∧
    (∀ msg f, wrappedMethod sch m
        (fun _ _ => .raised ⟨.webFault, msg, f⟩) args kwargs =
        (.error ⟨.serverError, msg, f⟩, true)) ∧
    (∀ msg f, wrappedMethod sch m
        (fun _ _ => .raised ⟨.urlError, msg, f⟩) args kwargs =
        (.error ⟨.connectionError, "URLError: " ++ msg, none⟩, true)) ∧
    (∀ msg f, wrappedMethod sch m
        (fun _ _ => .raised ⟨.badStatusLine, msg, f⟩) args kwargs =
        (.error ⟨.connectionError, "BadStatusLine: " ++ msg, none⟩,
         true)) ∧
    (∀ msg f, wrappedMethod sch m
        (fun _ _ => .raised ⟨.saxParseException, msg, f⟩) args kwargs =
        (.error ⟨.parseError,
          "Failed to parse the BIGIP's response. This was likely caused " ++
            "by a 500 error message.", none⟩, true)) ∧
    (∀ msg f, wrappedMethod sch m
        (fun _ _ => .raised ⟨.attributeErrorCls, msg, f⟩) args kwargs =
        (.error ⟨.connectionError,
          "iControl call failed, possibly invalid credentials.", none⟩,
         true)) := by
  refine ⟨?_, ?_, ?_, ?_, ?_, ?_⟩ <;>
    (intro msg f;
     simp [wrappedMethod, hok, translateExc, PyExc.isInst,
           ExcClass.ancestors])

/-- Witness for C1: a WebFault with a payload against a trivial
method becomes a ServerError carrying the payload. -/
theorem C1_failure_translation_witness :
    wrappedMethod [] ⟨"get_version", []⟩
        (fun _ _ => .raised ⟨.webFault, "Server raised fault",
          some (.vstr "detail")⟩) [] [] =
      (.error ⟨.serverError, "Server raised fault",
        some (.vstr "detail")⟩, true) :=
  (C1_failure_translation [] ⟨"get_version", []⟩ [] [] [] [] rfl).2.1
    "Server raised fault" (some (.vstr "detail"))

/-! ## A small concrete schema used by several claims

A soap-enc string array type, a two-attribute complex type with
primitive (None-defaulted) members, and an enumeration. -/

def demoSchema : Schema :=
  [("Common.StringSequence", ⟨[], some [⟨"arrayType", some ["string"]⟩]⟩),
   ("Common.Pair", ⟨[("x", .vnone), ("y", .vnone)], none⟩),
   ("Common.EnabledState",
     ⟨[("STATE_ENABLED", .vnone), ("STATE_DISABLED", .vnone)], none⟩)]

/-! ## Marshaller helper lemmas -/

/-- A declared type without a namespace qualifier (no dot, no colon)
passes any value through unchanged. -/
theorem processArg_nodot (sch : Schema) (t : String) (v : Value)
    (h₁ : strContains t '.' = false) (h₂ : strContains t ':' = false) :
    processArg sch t v = .ok v := by
  rw [processArg]
  by_cases hs : isSudsVal v = true
  · rw [if_pos hs]
  · rw [if_neg hs, if_pos (by simp [h₁, h₂])]

theorem pyGetattr_append_of_not_mem (a b : List (String × Value))
    (k : String) (h : ∀ p ∈ a, p.1 ≠ k) :
    pyGetattr (a ++ b) k = pyGetattr b k := by
  induction a with
  | nil => rfl
  | cons hd rest ih =>
      have hhd : (hd.1 == k) = false := by
        simpa using h hd (List.mem_cons_self _ _)
      rw [List.cons_append]
      unfold pyGetattr at *
      rw [List.find?_cons_of_neg _ (by simp [hhd])]
      exact ih (fun p hp => h p (List.mem_cons_of_mem _ hp))

theorem pyGetattr_cons_self (rest : List (String × Value)) (k : String)
    (v : Value) : pyGetattr ((k, v) :: rest) k = some v := by
  unfold pyGetattr
  rw [List.find?_cons_of_pos _ (by simp)]
  rfl

theorem mapUpdate_id (k : String) (v : Value) :
    ∀ (l : List (String × Value)), (∀ p ∈ l, p.1 ≠ k) →
    l.map (fun p => if p.1 == k then (k, v) else p) = l
  | [], _ => rfl
  | hd :: rest, h => by
      have hhd : (hd.1 == k) = false := by
        simpa using h hd (List.mem_cons_self _ _)
      rw [List.map_cons, hhd]
      simp only [Bool.false_eq_true, if_false]
      rw [mapUpdate_id k v rest (fun p hp => h p (List.mem_cons_of_mem _ hp))]

/-- pySetattr updates the one matching entry in place when the key
occurs once, between two halves free of it. -/
theorem pySetattr_middle (a b : List (String × Value)) (k : String)
    (d v : Value) (ha : ∀ p ∈ a, p.1 ≠ k) (hb : ∀ p ∈ b, p.1 ≠ k) :
    pySetattr (a ++ (k, d) :: b) k v = a ++ (k, v) :: b := by
  unfold pySetattr
  rw [if_pos (by simp)]
  rw [List.map_append, List.map_cons]
  simp only [beq_self_eq_true, if_pos]
  rw [mapUpdate_id k v a ha, mapUpdate_id k v b hb]

/-- The dict branch over a mapping that assigns, in declaration
order, every attribute of the object in turn, when every attribute
default has an unqualified class name (primitive-typed members):
each value is passed through and set, so the final keylist is the
mapping itself (after the already-set prefix). -/
theorem processDictAttrs_cover (sch : Schema) (cls : String) :
    ∀ (kvs todo done : List (String × Value)),
    kvs.map Prod.fst = todo.map Prod.fst →
    ((done ++ todo).map Prod.fst).Nodup →
    (∀ p ∈ todo, strContains (pyClassName p.2) '.' = false ∧
        strContains (pyClassName p.2) ':' = false) →
    processDictAttrs sch kvs cls (done ++ todo) = .ok (done ++ kvs)
  | [], todo, done, hkeys, _, _ => by
      have htodo : todo = [] := by
        cases todo with
        | nil => rfl
        | cons hd rest => simp at hkeys
      subst htodo
      rw [processDictAttrs]
  | (n, v) :: rest, todo, done, hkeys, hnd, hcls => by
      cases todo with
      | nil => simp at hkeys
      | cons thd ttodo =>
          obtain ⟨m, d⟩ := thd
          rw [List.map_cons, List.map_cons] at hkeys
          injection hkeys with hnm hkeys₂
          subst hnm
          dsimp only
          have hndshape : (done ++ (n, d) :: ttodo).map Prod.fst =
              done.map Prod.fst ++ n :: ttodo.map Prod.fst := by simp
          rw [hndshape] at hnd
          obtain ⟨hnddone, hndcons, hdisj⟩ := List.nodup_append.mp hnd
          have hndone : ∀ p ∈ done, p.1 ≠ n := by
            intro p hp hpn
            exact hdisj (hpn ▸ List.mem_map_of_mem Prod.fst hp)
              (List.mem_cons_self _ _)
          have hnttodo : ∀ p ∈ ttodo, p.1 ≠ n := by
            intro p hp hpn
            rw [List.nodup_cons] at hndcons
            exact hndcons.1 (hpn ▸ List.mem_map_of_mem Prod.fst hp)
          rw [processDictAttrs]
          rw [pyGetattr_append_of_not_mem done ((n, d) :: ttodo) n hndone,
              pyGetattr_cons_self]
          have hdcls := hcls (n, d) (List.mem_cons_self _ _)
          simp only [processArg_nodot sch (pyClassName d) v hdcls.1 hdcls.2,
                     Bind.bind, Except.bind]
          rw [pySetattr_middle done ttodo n d v hndone hnttodo]
          have hassoc₁ : done ++ (n, v) :: ttodo =
              (done ++ [(n, v)]) ++ ttodo := by simp
          have hassoc₂ : done ++ (n, v) :: rest =
              (done ++ [(n, v)]) ++ rest := by simp
          rw [hassoc₁, hassoc₂]
          apply processDictAttrs_cover sch cls rest ttodo (done ++ [(n, v)])
            hkeys₂
          · have : ((done ++ [(n, v)]) ++ ttodo).map Prod.fst =
                done.map Prod.fst ++ n :: ttodo.map Prod.fst := by simp
            rw [this, ← hndshape]
            exact hndshape ▸ List.nodup_append.mpr ⟨hnddone, hndcons, hdisj⟩
          · intro p hp
            exact hcls p (List.mem_cons_of_mem _ hp)

/-- Scalar values that survive normalization unchanged. -/
def isStrOrInt : Value → Bool
  | .vstr _ => true
  | .vint _ => true
  | _ => false

theorem convert_id_of_strOrInt (v : Value) (h : isStrOrInt v = true) :
    convertToNativeType v = v := by
  cases v <;> simp [isStrOrInt] at h <;> rfl

theorem map_convert_id (kvs : List (String × Value))
    (hv : ∀ p ∈ kvs, isStrOrInt p.2 = true) :
    kvs.map (fun p => (p.1, convertToNativeType p.2)) = kvs := by
  induction kvs with
  | nil => rfl
  | cons hd rest ih =>
      rw [List.map_cons,
          convert_id_of_strOrInt hd.2 (hv hd (List.mem_cons_self _ _)),
          ih (fun p hp => hv p (List.mem_cons_of_mem _ hp))]

/-- C8 counterexample: round-tripping a mapping that covers only some
attributes of the declared complex type is not the identity — the
schema object keeps the factory defaults of the unassigned
attributes, so the normalized output contains an extra key ("y")
that the original mapping did not have. -/
theorem C8_counterexample :
    processArg demoSchema "Common.Pair" (.vdict [("x", .vstr "v")]) =
      .ok (.vsuds "Common.Pair" [("x", .vstr "v"), ("y", .vnone)]) ∧
    convertToNativeType
        (.vsuds "Common.Pair" [("x", .vstr "v"), ("y", .vnone)]) =
      .vdict [("x", .vstr "v"), ("y", .vnone)] ∧
    pyGetattr [("x", .vstr "v"), ("y", .vnone)] "y" = some .vnone ∧
    pyGetattr [("x", .vstr "v")] "y" = none ∧
    (Value.vdict [("x", .vstr "v"), ("y", .vnone)] ≠
      .vdict [("x", .vstr "v")]) := by
  refine ⟨?_, by decide, by decide, by decide, by decide⟩
  simp [processArg, processDictAttrs, isSudsVal, lookupType, demoSchema,
        List.find?, strContains, pyGetattr, pySetattr, pyClassName,
        Bind.bind, Except.bind, pure, Except.pure]

/-- C8 amended: the round trip is the identity when the mapping
assigns a string or plain-integer value to every attribute of the
declared complex type, in declaration order with distinct keys, and
the type's attribute defaults are primitive-typed (their class names
carry no namespace qualifier).  A mapping that omits attributes
yields the omitted attributes with their factory defaults in
addition to the original keys (see the counterexample), and boolean
values are normalized to integers. -/
theorem C8_amended_round_trip (sch : Schema) (argType : String)
    (td : TypeDesc) (kvs : List (String × Value))
    (hlook : lookupType sch argType = some td)
    (hdot : ¬ (strContains argType '.' = false ∧
               strContains argType ':' = false))
    (hkeys : kvs.map Prod.fst = td.attrs.map Prod.fst)
    (hnd : (kvs.map Prod.fst).Nodup)
    (hcls : ∀ p ∈ td.attrs, strContains (pyClassName p.2) '.' = false ∧
        strContains (pyClassName p.2) ':' = false)
    (hvals : ∀ p ∈ kvs, isStrOrInt p.2 = true) :
    processArg sch argType (.vdict kvs) = .ok (.vsuds argType kvs) ∧
    convertToNativeType (.vsuds argType kvs) = .vdict kvs := by
  constructor
  · rw [processArg]
    rw [if_neg (by simp [isSudsVal])]
    rw [if_neg (by
      simp only [Bool.and_eq_true, Bool.not_eq_eq_eq_not, Bool.not_true]
      intro hc
      exact hdot ⟨by simpa using hc.1, by simpa using hc.2⟩)]
    rw [hlook]
    have hcover := processDictAttrs_cover sch argType kvs td.attrs []
      hkeys (by simpa [← hkeys] using hnd) hcls
    simp only [List.nil_append] at hcover
    simp [hcover, Bind.bind, Except.bind, pure, Except.pure]
  · rw [convertToNativeType, convertAttrs_eq_map kvs hnd,
        map_convert_id kvs hvals]

/-- Witness for C8 at a full two-attribute mapping. -/
theorem C8_amended_round_trip_witness :
    processArg demoSchema "Common.Pair"
        (.vdict [("x", .vstr "v"), ("y", .vint 7)]) =
      .ok (.vsuds "Common.Pair" [("x", .vstr "v"), ("y", .vint 7)]) ∧
    convertToNativeType
        (.vsuds "Common.Pair" [("x", .vstr "v"), ("y", .vint 7)]) =
      .vdict [("x", .vstr "v"), ("y", .vint 7)] := by
  refine C8_amended_round_trip demoSchema "Common.Pair"
    ⟨[("x", .vnone), ("y", .vnone)], none⟩
    [("x", .vstr "v"), ("y", .vint 7)] rfl ?_ (by decide) (by decide) ?_ ?_
  · intro hc
    have : strContains "Common.Pair" '.' = true := by decide
    rw [this] at hc
    exact absurd hc.1 (by decide)
  · intro p hp
    have : p = ("x", Value.vnone) ∨ p = ("y", Value.vnone) := by
      simpa using hp
    rcases this with h | h <;> subst h <;> exact ⟨by decide, by decide⟩
  · intro p hp
    have : p = ("x", Value.vstr "v") ∨ p = ("y", Value.vint 7) := by
      simpa using hp
    rcases this with h | h <;> subst h <;> decide

/-- C7 counterexample: a Python dict is a non-string iterable, but for
an array-typed parameter the Marshaller does not marshal its elements
into the array — the dict branch takes precedence, so an empty dict
yields the bare created array object with no items attribute at all,
where element-wise marshalling of an empty iterable would have set
items to the empty list. -/
theorem C7_counterexample :
    arrayTypeOf ⟨[], some [⟨"arrayType", some ["string"]⟩]⟩ =
      .ok (some "string") ∧
    processArg demoSchema "Common.StringSequence" (.vdict []) =
      .ok (.vsuds "Common.StringSequence" []) ∧
    pyGetattr ([] : List (String × Value)) "items" = none ∧
    (Except.ok (Value.vsuds "Common.StringSequence" []) ≠
      (.ok (.vsuds "Common.StringSequence"
        (pySetattr [] "items" (.vlist []))) :
        Except PyExc Value)) := by
  refine ⟨by decide, ?_, by decide, by decide⟩
  simp [processArg, processDictAttrs, isSudsVal, lookupType, demoSchema,
        List.find?, strContains, Bind.bind, Except.bind, pure, Except.pure]

/-- C7 amended: for a parameter whose declared type is an array type
(the created object's metadata carries an arrayType attribute
annotated with the element type), the Marshaller rejects a bare
string with ArgumentError; a list value is marshalled element-wise
against the element type, in order, into the object's items
attribute; a mapping value is instead handled by the complex-type
mapping rule, which takes precedence, an already-typed schema object
passes through unchanged, and any other (non-iterable) value raises
TypeError. -/
theorem C7_amended_array_marshalling (sch : Schema)
    (argType elemT : String) (td : TypeDesc)
    (hlook : lookupType sch argType = some td)
    (harr : arrayTypeOf td = .ok (some elemT))
    (hdot : ¬ (strContains argType '.' = false ∧
               strContains argType ':' = false)) :
    (∀ s, processArg sch argType (.vstr s) =
        .error ⟨.argumentError,
          argType ++ " needs an iterable, but was specified as a " ++
            "string: \"" ++ s ++ "\"", none⟩) ∧
    (∀ xs, processArg sch argType (.vlist xs) =
        match processList sch elemT xs with
        | .ok items =>
            .ok (.vsuds argType (pySetattr td.attrs "items" (.vlist items)))
        | .error e => .error e) ∧
    (∀ xs ys, processList sch elemT xs = .ok ys →
        ys.length = xs.length ∧
        ∀ i x y, xs.get? i = some x → ys.get? i = some y →
          processArg sch elemT x = .ok y) ∧
    (∀ kvs, processArg sch argType (.vdict kvs) =
        match processDictAttrs sch kvs argType td.attrs with
        | .ok finalAttrs => .ok (.vsuds argType finalAttrs)
        | .error e => .error e) ∧
    (∀ cls attrs, processArg sch argType (.vsuds cls attrs) =
        .ok (.vsuds cls attrs)) ∧
    (∀ n, processArg sch argType (.vint n) =
        .error ⟨.typeErrorCls, "'int' object is not iterable", none⟩) := by
  have hcond : (!strContains argType '.' && !strContains argType ':')
      = false := by
    cases hc₁ : strContains argType '.' <;>
      cases hc₂ : strContains argType ':' <;> simp_all
  refine ⟨?_, ?_, ?_, ?_, ?_, ?_⟩
  · intro s
    rw [processArg, if_neg (by simp [isSudsVal]), if_neg (by simp [hcond]),
        hlook]
    simp only [processArgTail, harr]
  · intro xs
    rw [processArg, if_neg (by simp [isSudsVal]), if_neg (by simp [hcond]),
        hlook]
    simp only [processArgTail, harr]
    cases hpl : processList sch elemT xs <;>
      simp [hpl, Bind.bind, Except.bind, pure, Except.pure]
  · intro xs
    induction xs with
    | nil =>
        intro ys h
        simp only [processList] at h
        cases h
        exact ⟨rfl, fun i x y hx _ => by simp at hx⟩
    | cons x rest ih =>
        intro ys h
        simp only [processList] at h
        cases hx : processArg sch elemT x with
        | error e => rw [hx] at h; simp [Bind.bind, Except.bind] at h
        | ok y =>
            rw [hx] at h
            cases hrest : processList sch elemT rest with
            | error e =>
                rw [hrest] at h
                simp [Bind.bind, Except.bind] at h
            | ok ys₂ =>
                rw [hrest] at h
                simp only [Bind.bind, Except.bind, pure, Except.pure,
                  Except.ok.injEq] at h
                subst h
                obtain ⟨hlen, hidx⟩ := ih ys₂ hrest
                refine ⟨by simp [hlen], ?_⟩
                intro i xi yi hxi hyi
                cases i with
                | zero =>
                    simp only [List.get?_cons_zero, Option.some.injEq]
                      at hxi hyi
                    subst hxi; subst hyi
                    exact hx
                | succ j =>
                    simp only [List.get?_cons_succ] at hxi hyi
                    exact hidx j xi yi hxi hyi
  · intro kvs
    rw [processArg, if_neg (by simp [isSudsVal]), if_neg (by simp [hcond]),
        hlook]
    cases hda : processDictAttrs sch kvs argType td.attrs <;>
      simp [hda, Bind.bind, Except.bind, pure, Except.pure]
  · intro cls attrs
    rw [processArg, if_pos (by simp [isSudsVal])]
  · intro n
    rw [processArg, if_neg (by simp [isSudsVal]), if_neg (by simp [hcond]),
        hlook]
    simp only [processArgTail, harr]
    rfl

/-- Witness for C7: marshalling a two-element string list into the
string-sequence array type. -/
theorem C7_amended_array_marshalling_witness :
    processArg demoSchema "Common.StringSequence"
        (.vlist [.vstr "a", .vstr "b"]) =
      .ok (.vsuds "Common.StringSequence"
        [("items", .vlist [.vstr "a", .vstr "b"])]) ∧
    processArg demoSchema "Common.StringSequence" (.vstr "oops") =
      .error ⟨.argumentError,
        "Common.StringSequence needs an iterable, but was specified " ++
          "as a string: \"oops\"", none⟩ := by
  have h := C7_amended_array_marshalling demoSchema "Common.StringSequence"
    "string" ⟨[], some [⟨"arrayType", some ["string"]⟩]⟩ rfl rfl
    (by intro hc; exact absurd hc.1 (by decide))
  constructor
  · rw [h.2.1 [.vstr "a", .vstr "b"]]
    have hlist : processList demoSchema "string" [.vstr "a", .vstr "b"] =
        .ok [.vstr "a", .vstr "b"] := by
      simp [processList, processArg, isSudsVal, strContains,
            Bind.bind, Except.bind, pure, Except.pure]
    rw [hlist]
    rfl
  · have hs := h.1 "oops"
    rw [hs]
    rfl

/-! ## Argument-count/name validation lemmas (C2) -/

/-- The _process_args loop raises the Too many arguments
ArgumentError when the arguments run past the ArgSpec, provided every
in-range argument itself processes without error (an in-range
processing failure surfaces first instead). -/
theorem processArgsAux_too_many (sch : Schema)
    (spec : List (String × String)) (m : MethodDesc) :
    ∀ (args : List Value) (i : Nat),
    i ≤ spec.length → spec.length < i + args.length →
    (∀ j t a, spec.get? (i + j) = some t → args.get? j = some a →
       ∃ v, processArg sch t.2 a = .ok v) →
    processArgsAux sch spec m i args =
      .error ⟨.argumentError,
        "Too many arguments passed to method: " ++ methodString m, none⟩
  | [], i, hle, hlt, _ => by simp at hlt; omega
  | a :: rest, i, hle, hlt, hok => by
      simp only [processArgsAux]
      by_cases hi : i < spec.length
      · cases ht : spec.get? i with
        | none =>
            rw [List.get?_eq_none] at ht
            omega
        | some t =>
            obtain ⟨tn, tt⟩ := t
            obtain ⟨v, hv⟩ := hok 0 (tn, tt) a (by simpa using ht) rfl
            have hone : processOnePos sch spec m i a = .ok v := by
              unfold processOnePos
              rw [ht]
              simp only at hv
              simp only [hv]
            rw [hone]
            simp only [Bind.bind, Except.bind]
            rw [processArgsAux_too_many sch spec m rest (i + 1) (by omega)
              (by simp at hlt ⊢; omega) ?_]
            intro j t₂ a₂ hj ha₂
            refine hok (j + 1) t₂ a₂ ?_ (by simpa using ha₂)
            rw [← hj]
            congr 1
            omega
      · have hnone : spec.get? i = none := by
          rw [List.get?_eq_none]
          omega
        have hone : processOnePos sch spec m i a =
            .error ⟨.argumentError,
              "Too many arguments passed to method: " ++ methodString m,
              none⟩ := by
          unfold processOnePos
          rw [hnone]
          rfl
        rw [hone]
        rfl

/-- The _process_kwargs loop raises the Invalid keyword argument
ArgumentError at the first keyword whose name is absent from the
ArgSpec, provided the keywords before it process without error. -/
theorem processKwargsAux_invalid (sch : Schema)
    (spec : List (String × String)) (m : MethodDesc) :
    ∀ (pre : List (String × Value)) (bad : String) (v : Value)
      (rest : List (String × Value)),
    (∀ p ∈ pre, ∃ u, processOneKw sch spec m p.1 p.2 = .ok u) →
    (∀ q ∈ spec, q.1 ≠ bad) →
    processKwargsAux sch spec m (pre ++ (bad, v) :: rest) =
      .error ⟨.argumentError,
        "Invalid keyword argument \"" ++ bad ++ "\" passed to method: " ++
          methodString m, none⟩
  | [], bad, v, rest, _, hbad => by
      simp only [List.nil_append, processKwargsAux]
      have hfilter : spec.filter (fun x => x.1 == bad) = [] := by
        rw [List.filter_eq_nil_iff]
        intro q hq
        simpa using hbad q hq
      have hone : processOneKw sch spec m bad v =
          .error ⟨.argumentError,
            "Invalid keyword argument \"" ++ bad ++
              "\" passed to method: " ++ methodString m, none⟩ := by
        unfold processOneKw
        rw [hfilter]
        rfl
      rw [hone]
      rfl
  | p :: pre, bad, v, rest, hpre, hbad => by
      simp only [List.cons_append, processKwargsAux, List.append_eq]
      obtain ⟨u, hu⟩ := hpre p (List.mem_cons_self _ _)
      rw [hu]
      simp only [Bind.bind, Except.bind]
      rw [processKwargsAux_invalid sch spec m pre bad v rest
        (fun q hq => hpre q (List.mem_cons_of_mem _ hq)) hbad]

/-- C2 counterexample: with one declared array-typed parameter and
two integer arguments, too many positional arguments are supplied,
yet no ArgumentError is raised — processing the first (in-range)
argument iterates a non-iterable and a TypeError (outside the
OperationFailed taxonomy) propagates first.  The remote method is
still never invoked. -/
theorem C2_counterexample :
    (makeArgspec ⟨"set_names",
        [⟨"names", "Common.StringSequence"⟩]⟩).length <
      ([Value.vint 5, Value.vint 6]).length ∧
    wrappedMethod demoSchema ⟨"set_names",
        [⟨"names", "Common.StringSequence"⟩]⟩
        (fun _ _ => .success .vnone) [.vint 5, .vint 6] [] =
      (.error ⟨.typeErrorCls, "'int' object is not iterable", none⟩,
       false) ∧
    (⟨.typeErrorCls, "'int' object is not iterable", none⟩ :
        PyExc).isInst .argumentError = false := by
  refine ⟨by decide, ?_, by decide⟩
  simp [wrappedMethod, processAll, processArgsFn, processArgsAux,
        processOnePos, makeArgspec, processKwargsFn, processKwargsAux,
        processArg, processArgTail, isSudsVal, lookupType, demoSchema,
        List.find?, strContains, arrayTypeOf, arrayTypeOf.loop,
        pyClassName, PyExc.isInst, ExcClass.ancestors, Bind.bind,
        Except.bind, pure, Except.pure, methodString]

/-- C2 amended: supplying more positional arguments than the ArgSpec
declares raises ArgumentError naming the method signature provided
the in-range arguments themselves process without error (an in-range
marshalling failure is reported instead, and such a failure need not
be an ArgumentError — see the counterexample); a keyword argument
whose name is absent from the ArgSpec raises ArgumentError naming the
keyword and the signature provided the positional arguments and the
keywords before it process without error; and in every case in which
argument processing raises, the raised exception propagates and the
remote method is never invoked — argument processing happens strictly
before dispatch. -/
theorem C2_amended_argument_validation (sch : Schema) (m : MethodDesc)
    (call : List Value → List (String × Value) → SudsOutcome) :
    (∀ args kwargs, (makeArgspec m).length < args.length →
      (∀ j t a, (makeArgspec m).get? j = some t → args.get? j = some a →
        ∃ v, processArg sch t.2 a = .ok v) →
      wrappedMethod sch m call args kwargs =
        (.error ⟨.argumentError,
          "Too many arguments passed to method: " ++ methodString m,
          none⟩, false)) ∧
    (∀ args as pre bad v rest,
      processArgsFn sch m args = .ok as →
      (∀ p ∈ pre, ∃ u, processOneKw sch (makeArgspec m) m p.1 p.2 = .ok u) →
      (∀ q ∈ makeArgspec m, q.1 ≠ bad) →
      wrappedMethod sch m call args (pre ++ (bad, v) :: rest) =
        (.error ⟨.argumentError,
          "Invalid keyword argument \"" ++ bad ++
            "\" passed to method: " ++ methodString m, none⟩, false)) ∧
    (∀ args kwargs e, processAll sch m args kwargs = .error e →
      wrappedMethod sch m call args kwargs = (.error e, false)) := by
  refine ⟨?_, ?_, ?_⟩
  · intro args kwargs hlen hok
    have hargs : processArgsFn sch m args =
        .error ⟨.argumentError,
          "Too many arguments passed to method: " ++ methodString m,
          none⟩ := by
      unfold processArgsFn
      exact processArgsAux_too_many sch (makeArgspec m) m args 0
        (by omega) (by omega) (by simpa using hok)
    unfold wrappedMethod processAll
    rw [hargs]
    rfl
  · intro args as pre bad v rest hargs hpre hbad
    have hkw := processKwargsAux_invalid sch (makeArgspec m) m pre bad v
      rest hpre hbad
    unfold wrappedMethod processAll
    rw [hargs]
    simp only [Bind.bind, Except.bind]
    unfold processKwargsFn
    rw [hkw]
  · intro args kwargs e he
    unfold wrappedMethod
    rw [he]

/-- Witness for C2: a one-parameter method of a primitive type given
two arguments. -/
theorem C2_amended_argument_validation_witness :
    wrappedMethod demoSchema ⟨"get_version", [⟨"level", "long"⟩]⟩
        (fun _ _ => .success .vnone) [.vint 1, .vint 2] [] =
      (.error ⟨.argumentError,
        "Too many arguments passed to method: get_version(long level)",
        none⟩, false) := by
  have h := (C2_amended_argument_validation demoSchema
    ⟨"get_version", [⟨"level", "long"⟩]⟩ (fun _ _ => .success .vnone)).1
    [.vint 1, .vint 2] [] (by decide) ?_
  · rw [h]
    rfl
  · intro j t a hj ha
    have hj0 : j = 0 := by
      cases j with
      | zero => rfl
      | succ k => simp [makeArgspec] at hj
    subst hj0
    simp only [makeArgspec, List.map_cons, List.map_nil,
      List.get?_cons_zero, Option.some.injEq] at hj ha
    refine ⟨a, ?_⟩
    rw [← hj]
    exact processArg_nodot demoSchema "long" a (by decide) (by decide)

/-- C9 counterexample: an exception can reach the caller that is not
an instance of the OperationFailed base kind — a TypeError from
argument processing (a non-iterable value for an array-typed
parameter) propagates untranslated. -/
theorem C9_counterexample :
    wrappedMethod demoSchema ⟨"set_names",
        [⟨"names", "Common.StringSequence"⟩]⟩
        (fun _ _ => .success .vnone) [.vnone] [] =
      (.error ⟨.typeErrorCls, "'NoneType' object is not iterable",
        none⟩, false) ∧
    (⟨.typeErrorCls, "'NoneType' object is not iterable", none⟩ :
        PyExc).isInst .operationFailed = false := by
  refine ⟨?_, by decide⟩
  simp [wrappedMethod, processAll, processArgsFn, processArgsAux,
        processOnePos, makeArgspec, processKwargsFn, processKwargsAux,
        processArg, processArgTail, isSudsVal, lookupType, demoSchema,
        List.find?, strContains, arrayTypeOf, arrayTypeOf.loop,
        pyClassName, PyExc.isInst, ExcClass.ancestors, Bind.bind,
        Except.bind, pure, Except.pure, methodString]

/-- C9 amended: every exception produced by the remote-call failure
translation is an instance of OperationFailed; a MethodNotFound is
produced by reassigning the class of the library's MethodNotFound in
place, so it remains an instance of that library type with message
and fault payload verbatim, and a ServerError likewise remains an
instance of the library's WebFault with its fault payload verbatim.
(An argument-processing failure outside the taxonomy — see the
counterexample — propagates untranslated.) -/
theorem C9_amended_exception_taxonomy :
    (∀ msg f, translateExc ⟨.sudsMethodNotFound, msg, f⟩ =
        ⟨.methodNotFoundB, msg, f⟩ ∧
      (⟨.methodNotFoundB, msg, f⟩ : PyExc).isInst .operationFailed = true ∧
      (⟨.methodNotFoundB, msg, f⟩ : PyExc).isInst .sudsMethodNotFound
        = true) ∧
    (∀ msg f, translateExc ⟨.webFault, msg, f⟩ = ⟨.serverError, msg, f⟩ ∧
      (⟨.serverError, msg, f⟩ : PyExc).isInst .operationFailed = true ∧
      (⟨.serverError, msg, f⟩ : PyExc).isInst .webFault = true) ∧
    (∀ msg f,
      (translateExc ⟨.urlError, msg, f⟩).isInst .operationFailed = true ∧
      (translateExc ⟨.badStatusLine, msg, f⟩).isInst .operationFailed
        = true ∧
      (translateExc ⟨.saxParseException, msg, f⟩).isInst .operationFailed
        = true ∧
      (translateExc ⟨.attributeErrorCls, msg, f⟩).isInst .operationFailed
        = true) := by
  refine ⟨?_, ?_, ?_⟩ <;>
    (intro msg f;
     simp [translateExc, PyExc.isInst, ExcClass.ancestors])

/-- C6: a facade attribute name containing an underscore is
reinterpreted as two hops — the segment before the first underscore,
then the remainder, resolved on the resulting namespace — exactly
when no literal instance attribute of that underscored name exists;
a literal attribute (such as a previously memoised one) is returned
as-is, with no splitting and no state change. -/
theorem C6_underscore_split (env : Env) (s : BigipState) (attr : String)
    (hu : strContains attr '_' = true)
    (hd : strStartsWith attr "__" = false) :
    (∀ o, lookupAttr s.attrs attr = some o →
        bigipGetattr env s attr = (.ok o, s)) ∧
    (lookupAttr s.attrs attr = none →
        bigipGetattr env s attr =
          (match bigipGetattrBase env s (pySplitUnder attr).1 with
           | (.error e, s₁) => (.error e, s₁)
           | (.ok (.ns _), s₁) =>
               nsGetattrAt env s₁ (pySplitUnder attr).1 (pySplitUnder attr).2
           | (.ok _, s₁) =>
               (.error ⟨.attributeErrorCls,
                 "getattr on non-namespace object", none⟩, s₁))) := by
  constructor
  · intro o ho
    unfold bigipGetattr
    rw [ho]
  · intro hnone
    unfold bigipGetattr
    rw [hnone, if_neg (by simp [hd]), if_pos hu]

/-- Witness for C6: a memoised underscored attribute is returned
without splitting; on a fresh facade the same name is split into two
hops and resolves the LocalLB.Pool client. -/
theorem C6_underscore_split_witness :
    bigipGetattr (fun _ => .okFetch)
        ⟨[("LocalLB_Pool", .field "memoized")], [], 5⟩ "LocalLB_Pool" =
      (.ok (.field "memoized"),
       ⟨[("LocalLB_Pool", .field "memoized")], [], 5⟩) ∧
    bigipGetattr (fun _ => .okFetch) freshBigip "LocalLB_Pool" =
      (.ok (.client ⟨1, "LocalLB.Pool"⟩),
       ⟨[("LocalLB", .ns ⟨0, "LocalLB", [("Pool", ⟨1, "LocalLB.Pool"⟩)]⟩)],
        ["LocalLB.Pool"], 2⟩) := by
  constructor
  · exact (C6_underscore_split (fun _ => .okFetch)
      ⟨[("LocalLB_Pool", .field "memoized")], [], 5⟩ "LocalLB_Pool"
      (by decide) (by decide)).1 (.field "memoized") (by decide)
  · have h := (C6_underscore_split (fun _ => .okFetch) freshBigip
      "LocalLB_Pool" (by decide) (by decide)).2 (by decide)
    rw [h]
    decide

/-! ## Cache lemmas for the Namespace Resolver (C3) -/

theorem findPairs_cons (hd : String × PyObj) (rest : List (String × PyObj))
    (k : String) :
    List.find? (fun p => p.1 == k) (hd :: rest) =
      if hd.1 == k then some hd
      else List.find? (fun p => p.1 == k) rest := by
  rw [List.find?_cons]
  by_cases h : (hd.1 == k) = true <;> simp [h]

theorem lookupAttr_setAttrObj_self (attrs : List (String × PyObj))
    (k : String) (o : PyObj) :
    lookupAttr (setAttrObj attrs k o) k = some o := by
  unfold setAttrObj lookupAttr
  by_cases hmem : attrs.any (fun p => p.1 == k)
  · rw [if_pos hmem]
    induction attrs with
    | nil => simp at hmem
    | cons hd rest ih =>
        rw [List.map_cons]
        by_cases hk : (hd.1 == k) = true
        · rw [if_pos hk, findPairs_cons]
          simp
        · rw [if_neg hk, findPairs_cons, if_neg (by simpa using hk)]
          exact ih (by simpa [hk] using hmem)
  · rw [if_neg hmem]
    rw [List.any_eq_true] at hmem
    push_neg at hmem
    induction attrs with
    | nil => simp [List.find?]
    | cons hd rest ih =>
        rw [List.cons_append, findPairs_cons,
            if_neg (by simpa using hmem hd (List.mem_cons_self _ _))]
        exact ih (fun p hp => hmem p (List.mem_cons_of_mem _ hp))

theorem lookupAttr_setAttrObj_other (attrs : List (String × PyObj))
    (k k₂ : String) (o : PyObj) (hne : k₂ ≠ k) :
    lookupAttr (setAttrObj attrs k o) k₂ = lookupAttr attrs k₂ := by
  have hkk₂ : (k == k₂) = false := beq_eq_false_iff_ne.mpr (Ne.symm hne)
  unfold setAttrObj lookupAttr
  by_cases hmem : attrs.any (fun p => p.1 == k)
  · rw [if_pos hmem]
    clear hmem
    induction attrs with
    | nil => rfl
    | cons hd rest ih =>
        rw [List.map_cons]
        by_cases hk : (hd.1 == k) = true
        · have h1 : hd.1 = k := by simpa using hk
          rw [if_pos hk, findPairs_cons, findPairs_cons, h1]
          simp only [hkk₂, Bool.false_eq_true, if_false]
          exact ih
        · rw [if_neg hk, findPairs_cons, findPairs_cons]
          by_cases hk₂ : (hd.1 == k₂) = true
          · rw [if_pos hk₂, if_pos hk₂]
          · rw [if_neg (by simpa using hk₂), if_neg (by simpa using hk₂)]
            exact ih
  · rw [if_neg hmem]
    clear hmem
    induction attrs with
    | nil => simp [List.find?, hkk₂]
    | cons hd rest ih =>
        rw [List.cons_append, findPairs_cons, findPairs_cons]
        by_cases hk₂ : (hd.1 == k₂) = true
        · rw [if_pos hk₂, if_pos hk₂]
        · rw [if_neg (by simpa using hk₂), if_neg (by simpa using hk₂)]
          exact ih

theorem find?_append_of_none {α : Type} (p : α → Bool) (a b : List α)
    (h : a.find? p = none) : (a ++ b).find? p = b.find? p := by
  induction a with
  | nil => rfl
  | cons hd rest ih =>
      rw [List.find?_cons] at h
      cases hp : p hd with
      | true => rw [hp] at h; cases h
      | false =>
          rw [hp] at h
          rw [List.cons_append, List.find?_cons, hp]
          exact ih h

theorem find?_append_of_some {α : Type} (p : α → Bool) (a b : List α)
    (x : α) (h : a.find? p = some x) : (a ++ b).find? p = some x := by
  induction a with
  | nil => cases h
  | cons hd rest ih =>
      rw [List.find?_cons] at h
      cases hp : p hd with
      | true =>
          rw [hp] at h
          rw [List.cons_append, List.find?_cons, hp]
          exact h
      | false =>
          rw [hp] at h
          rw [List.cons_append, List.find?_cons, hp]
          exact ih h

/-- createClient never touches the attribute dictionary, and appends
exactly the requested WSDL name to the fetch log. -/
theorem createClient_state (env : Env) (s : BigipState) (w : String) :
    (createClient env s w).2.attrs = s.attrs ∧
    (createClient env s w).2.fetchLog = s.fetchLog ++ [w] := by
  unfold createClient
  cases env w <;> exact ⟨rfl, rfl⟩

/-- A namespace lookup never hands back a namespace object. -/
theorem nsGetattrAt_no_ns (env : Env) (s : BigipState) (key attr : String)
    (m : NsObj) (s₁ : BigipState)
    (h : nsGetattrAt env s key attr = (.ok (.ns m), s₁)) : False := by
  unfold nsGetattrAt at h
  split at h
  · split at h
    · simp at h
    · split at h
      · simp at h
      · dsimp only at h
        split at h
        · simp at h
        · simp at h
  · simp at h

/-- A successful client lookup on a namespace implies the client is
memoised in the resulting state, under the key the namespace was
addressed with, and the attribute is not a dunder name. -/
theorem nsGetattrAt_ok (env : Env) (s : BigipState) (key attr : String)
    (c : ClientObj) (s₁ : BigipState)
    (h : nsGetattrAt env s key attr = (.ok (.client c), s₁)) :
    strStartsWith attr "__" = false ∧
    ∃ n₁, lookupAttr s₁.attrs key = some (.ns n₁) ∧
      (n₁.clients.find? (fun q => q.1 == attr)).map (fun q => q.2)
        = some c := by
  unfold nsGetattrAt at h
  split at h
  case h_1 n hlook =>
    split at h
    · simp at h
    case isFalse hdun =>
      refine ⟨by simpa using hdun, ?_⟩
      split at h
      case h_1 c₂ hfind =>
        obtain ⟨hc, hs⟩ := Prod.mk.injEq .. ▸ h
        injection hc with hc
        injection hc with hc
        subst hc
        subst hs
        exact ⟨n, hlook, hfind⟩
      case h_2 hfind =>
        dsimp only at h
        split at h
        · simp at h
        case h_2 c₂ s₂ hcreate =>
          rw [Prod.mk.injEq] at h
          obtain ⟨hc, hs⟩ := h
          injection hc with hc
          injection hc with hc
          subst hc
          subst hs
          refine ⟨{ n with clients := n.clients ++ [(attr, c₂)] }, ?_, ?_⟩
          · exact lookupAttr_setAttrObj_self _ key _
          · have hnone : n.clients.find? (fun q => q.1 == attr) = none := by
              cases hf : n.clients.find? (fun q => q.1 == attr) with
              | none => rfl
              | some q => rw [hf] at hfind; simp at hfind
            rw [find?_append_of_none _ _ _ hnone]
            simp [List.find?]
  case h_2 =>
    simp at h

/-- A first hop that produces a namespace leaves that namespace
memoised under the attribute name in the resulting state. -/
theorem bigipGetattr_ok_ns (env : Env) (s : BigipState) (a : String)
    (n : NsObj) (s₁ : BigipState)
    (h : bigipGetattr env s a = (.ok (.ns n), s₁)) :
    lookupAttr s₁.attrs a = some (.ns n) := by
  unfold bigipGetattr at h
  split at h
  case h_1 o ho =>
    obtain ⟨ho₂, hs⟩ := Prod.mk.injEq .. ▸ h
    injection ho₂ with ho₂
    subst ho₂
    subst hs
    exact ho
  case h_2 hnone =>
    split at h
    · simp at h
    split at h
    · -- underscore split: the result comes from the second hop on a
      -- namespace, which never returns a namespace object
      dsimp only at h
      split at h
      · simp at h
      · exact absurd h (fun hc => nsGetattrAt_no_ns env _ _ _ n s₁ hc)
      · simp at h
    · -- plain creation in bigipGetattrBase
      unfold bigipGetattrBase at h
      split at h
      case h_1 o ho => rw [ho] at hnone; cases hnone
      case h_2 =>
        split at h
        · simp at h
        · obtain ⟨ho₂, hs⟩ := Prod.mk.injEq .. ▸ h
          injection ho₂ with ho₂
          injection ho₂ with ho₂
          subst ho₂
          rw [← hs]
          exact lookupAttr_setAttrObj_self _ a _

/-- A cached path resolves to its cached client with no state
change. -/
theorem resolvePath_cached_hit (env : Env) (s : BigipState)
    (p : String × String) (n : NsObj) (c : ClientObj)
    (hns : lookupAttr s.attrs p.1 = some (.ns n))
    (hc : (n.clients.find? (fun q => q.1 == p.2)).map (fun q => q.2)
      = some c)
    (hdun : strStartsWith p.2 "__" = false) :
    resolvePath env s p = (.ok c, s) := by
  have h1 : bigipGetattr env s p.1 = (.ok (.ns n), s) := by
    unfold bigipGetattr
    simp only [hns]
  have h2 : nsGetattrAt env s p.1 p.2 = (.ok (.client c), s) := by
    unfold nsGetattrAt
    simp only [hns]
    rw [if_neg (by simp [hdun])]
    simp only [hc]
  simp only [resolvePath, h1, h2]

/-- A successful resolution leaves the client cached in the final
state. -/
theorem resolvePath_ok (env : Env) (s : BigipState) (p : String × String)
    (c : ClientObj) (s₁ : BigipState)
    (h : resolvePath env s p = (.ok c, s₁)) :
    strStartsWith p.2 "__" = false ∧
    ∃ n, lookupAttr s₁.attrs p.1 = some (.ns n) ∧
      (n.clients.find? (fun q => q.1 == p.2)).map (fun q => q.2)
        = some c := by
  unfold resolvePath at h
  split at h
  · simp at h
  case h_2 n s₂ hbg =>
    split at h
    case h_1 c₂ s₃ hns =>
      obtain ⟨hc, hs⟩ := Prod.mk.injEq .. ▸ h
      injection hc with hc
      subst hc
      subst hs
      exact nsGetattrAt_ok env s₂ p.1 p.2 _ _ hns
    · simp at h
    · simp at h
  · simp at h

/-! ## Invariants for the at-most-one-fetch property (C3) -/

/-- The client for the path is memoised in the facade state. -/
def pathCached (s : BigipState) (p : String × String) (c : ClientObj) :
    Prop :=
  ∃ n, lookupAttr s.attrs p.1 = some (.ns n) ∧
    (n.clients.find? (fun q => q.1 == p.2)).map (fun q => q.2) = some c

/-- Every namespace object is stored under its own name (true of all
states the facade can reach, since __getattr__ builds the namespace
from the attribute name it memoises it under). -/
def nameConsistent (s : BigipState) : Prop :=
  ∀ k n, lookupAttr s.attrs k = some (.ns n) → n.name = k

/-- Segment hygiene of a two-segment path as used through attribute
access: the first segment carries no underscore (so the pycontrol
splitting rule does not reinterpret it) and neither segment is a
dunder name. -/
def pathHygienic (q : String × String) : Bool :=
  !strContains q.1 '_' && !strStartsWith q.1 "__" &&
    !strStartsWith q.2 "__"

/-- The state effects of one second-hop lookup on a consistent
namespace: consistency is preserved, the fetch log grows by at most
the path's own dotted name, and every memoised client of a different
path survives. -/
theorem nsGetattrAt_step (env : Env) (s : BigipState) (key attr : String)
    (n : NsObj) (hlook : lookupAttr s.attrs key = some (.ns n))
    (hname : n.name = key) (hnc : nameConsistent s) :
    nameConsistent (nsGetattrAt env s key attr).2 ∧
    ((nsGetattrAt env s key attr).2.fetchLog = s.fetchLog ∨
     (nsGetattrAt env s key attr).2.fetchLog =
       s.fetchLog ++ [key ++ "." ++ attr]) ∧
    (∀ r c, (r.1 ≠ key ∨ r.2 ≠ attr) → pathCached s r c →
        pathCached (nsGetattrAt env s key attr).2 r c) := by
  unfold nsGetattrAt
  rw [hlook]
  dsimp only
  by_cases hdun : strStartsWith attr "__" = true
  · rw [if_pos hdun]
    exact ⟨hnc, Or.inl rfl, fun r c _ hc => hc⟩
  · rw [if_neg hdun]
    cases hfind : (n.clients.find? (fun p => p.1 == attr)).map
        (fun p => p.2) with
    | some c₀ => exact ⟨hnc, Or.inl rfl, fun r c _ hc => hc⟩
    | none =>
        dsimp only
        rw [hname]
        cases hcc : createClient env s (key ++ "." ++ attr) with
        | mk res s₂ =>
            have hcs := createClient_state env s (key ++ "." ++ attr)
            rw [hcc] at hcs
            obtain ⟨hattrs, hlog⟩ := hcs
            cases res with
            | error e =>
                refine ⟨?_, Or.inr hlog, ?_⟩
                · intro k m hk
                  exact hnc k m (by rwa [hattrs] at hk)
                · intro r c _ hc
                  obtain ⟨m, hm, hf⟩ := hc
                  exact ⟨m, by rwa [hattrs], hf⟩
            | ok c₂ =>
                dsimp only
                refine ⟨?_, Or.inr hlog, ?_⟩
                · intro k m hk
                  dsimp only at hk
                  by_cases hkey : k = key
                  · subst hkey
                    rw [lookupAttr_setAttrObj_self] at hk
                    injection hk with hk
                    injection hk with hk
                    rw [← hk]
                  · rw [lookupAttr_setAttrObj_other _ _ _ _ hkey,
                        hattrs] at hk
                    exact hnc k m hk
                · intro r c hne hc
                  obtain ⟨m, hm, hf⟩ := hc
                  by_cases hkey : r.1 = key
                  · have hm₂ : m = n := by
                      rw [hkey, hlook] at hm
                      injection hm with hm
                      injection hm with hm
                      exact hm.symm
                    subst hm₂
                    refine ⟨⟨m.id, key, m.clients ++ [(attr, c₂)]⟩,
                      ?_, ?_⟩
                    · dsimp only
                      rw [hkey]
                      exact lookupAttr_setAttrObj_self _ key _
                    · have hattr : r.2 ≠ attr := by
                        rcases hne with h₁ | h₂
                        · exact absurd hkey h₁
                        · exact h₂
                      cases hf₀ : m.clients.find?
                          (fun q => q.1 == r.2) with
                      | none => rw [hf₀] at hf; cases hf
                      | some q₀ =>
                          rw [hf₀] at hf
                          dsimp only
                          rw [find?_append_of_some _ _ _ _ hf₀]
                          exact hf
                  · refine ⟨m, ?_, hf⟩
                    dsimp only
                    rw [lookupAttr_setAttrObj_other _ _ _ _ hkey, hattrs]
                    exact hm

/-- The state effects of one full path resolution under segment
hygiene: consistency is preserved, the fetch log grows by at most the
path's own dotted name, and every memoised client of a different path
survives. -/
theorem resolvePath_step (env : Env) (s : BigipState)
    (q : String × String)
    (hq₁ : strContains q.1 '_' = false)
    (hq₂ : strStartsWith q.1 "__" = false)
    (hnc : nameConsistent s) :
    nameConsistent (resolvePath env s q).2 ∧
    ((resolvePath env s q).2.fetchLog = s.fetchLog ∨
     (resolvePath env s q).2.fetchLog = s.fetchLog ++ [dottedName q]) ∧
    (∀ r c, r ≠ q → pathCached s r c →
        pathCached (resolvePath env s q).2 r c) := by
  unfold resolvePath bigipGetattr
  cases hlook : lookupAttr s.attrs q.1 with
  | some o =>
      cases o with
      | ns n =>
          dsimp only
          have hname : n.name = q.1 := hnc q.1 n hlook
          have hstep := nsGetattrAt_step env s q.1 q.2 n hlook hname hnc
          cases hres : nsGetattrAt env s q.1 q.2 with
          | mk r₀ s₂ =>
              rw [hres] at hstep
              cases r₀ with
              | error e => exact ⟨hstep.1, hstep.2.1, fun r c hne hc =>
                  hstep.2.2 r c (by
                    by_cases h₁ : r.1 = q.1
                    · right
                      intro h₂
                      exact hne (Prod.ext h₁ h₂)
                    · left
                      exact h₁) hc⟩
              | ok o₂ =>
                  cases o₂ with
                  | client c₂ => exact ⟨hstep.1, hstep.2.1,
                      fun r c hne hc => hstep.2.2 r c (by
                        by_cases h₁ : r.1 = q.1
                        · right
                          intro h₂
                          exact hne (Prod.ext h₁ h₂)
                        · left
                          exact h₁) hc⟩
                  | ns m => exact ⟨hstep.1, hstep.2.1,
                      fun r c hne hc => hstep.2.2 r c (by
                        by_cases h₁ : r.1 = q.1
                        · right
                          intro h₂
                          exact hne (Prod.ext h₁ h₂)
                        · left
                          exact h₁) hc⟩
                  | field f => exact ⟨hstep.1, hstep.2.1,
                      fun r c hne hc => hstep.2.2 r c (by
                        by_cases h₁ : r.1 = q.1
                        · right
                          intro h₂
                          exact hne (Prod.ext h₁ h₂)
                        · left
                          exact h₁) hc⟩
                  | dunderObj d => exact ⟨hstep.1, hstep.2.1,
                      fun r c hne hc => hstep.2.2 r c (by
                        by_cases h₁ : r.1 = q.1
                        · right
                          intro h₂
                          exact hne (Prod.ext h₁ h₂)
                        · left
                          exact h₁) hc⟩
      | client c₀ => exact ⟨hnc, Or.inl rfl, fun r c _ hc => hc⟩
      | field f₀ => exact ⟨hnc, Or.inl rfl, fun r c _ hc => hc⟩
      | dunderObj d₀ => exact ⟨hnc, Or.inl rfl, fun r c _ hc => hc⟩
  | none =>
      dsimp only
      rw [if_neg (by simp [hq₂]), if_neg (by simp [hq₁])]
      unfold bigipGetattrBase
      rw [hlook]
      dsimp only
      rw [if_neg (by simp [hq₂])]
      dsimp only
      -- the fresh namespace is memoised, then the second hop runs on
      -- the extended state
      set nFresh : NsObj := ⟨s.nextId, q.1, []⟩ with hnF
      set sMid : BigipState :=
        { s with attrs := setAttrObj s.attrs q.1 (.ns nFresh),
                 nextId := s.nextId + 1 } with hsMid
      have hlook₂ : lookupAttr sMid.attrs q.1 = some (.ns nFresh) :=
        lookupAttr_setAttrObj_self _ q.1 _
      have hncMid : nameConsistent sMid := by
        intro k m hk
        by_cases hkey : k = q.1
        · subst hkey
          rw [hlook₂] at hk
          injection hk with hk
          injection hk with hk
          rw [← hk]
        · rw [show sMid.attrs = setAttrObj s.attrs q.1 (.ns nFresh)
              from rfl, lookupAttr_setAttrObj_other _ _ _ _ hkey] at hk
          exact hnc k m hk
      have hstep := nsGetattrAt_step env sMid q.1 q.2 nFresh hlook₂ rfl
        hncMid
      have hmid : ∀ r c, pathCached s r c → pathCached sMid r c := by
        intro r c hc
        obtain ⟨m, hm, hf⟩ := hc
        by_cases hkey : r.1 = q.1
        · rw [hkey, hlook] at hm
          cases hm
        · refine ⟨m, ?_, hf⟩
          rw [show sMid.attrs = setAttrObj s.attrs q.1 (.ns nFresh)
              from rfl, lookupAttr_setAttrObj_other _ _ _ _ hkey]
          exact hm
      cases hres : nsGetattrAt env sMid q.1 q.2 with
      | mk r₀ s₂ =>
          rw [hres] at hstep
          have hlogMid : sMid.fetchLog = s.fetchLog := rfl
          have hpres : ∀ r c, r ≠ q → pathCached s r c →
              pathCached s₂ r c := by
            intro r c hne hc
            exact hstep.2.2 r c (by
              by_cases h₁ : r.1 = q.1
              · right
                intro h₂
                exact hne (Prod.ext h₁ h₂)
              · left
                exact h₁) (hmid r c hc)
          have hlog₂ : s₂.fetchLog = s.fetchLog ∨
              s₂.fetchLog = s.fetchLog ++ [dottedName q] := by
            rcases hstep.2.1 with h | h
            · exact Or.inl (by rw [h])
            · refine Or.inr ?_
              rw [h]
              rfl
          cases r₀ with
          | error e => exact ⟨hstep.1, hlog₂, hpres⟩
          | ok o₂ =>
              cases o₂ with
              | client c₂ => exact ⟨hstep.1, hlog₂, hpres⟩
              | ns m => exact ⟨hstep.1, hlog₂, hpres⟩
              | field f => exact ⟨hstep.1, hlog₂, hpres⟩
              | dunderObj d => exact ⟨hstep.1, hlog₂, hpres⟩

/-- Resolving a path that is not yet memoised either fails at the
first hop without fetching (a non-namespace object sits at the first
segment) and leaves the state unchanged, or fetches the path's WSDL
exactly once and memoises the client (the environment is assumed to
serve this WSDL). -/
theorem resolvePath_uncached (env : Env) (s : BigipState)
    (p : String × String)
    (hp₂ : strStartsWith p.1 "__" = false)
    (hp₁ : strContains p.1 '_' = false)
    (hp₃ : strStartsWith p.2 "__" = false)
    (henv : env (dottedName p) = .okFetch)
    (hnc : nameConsistent s)
    (hun : ∀ c, ¬ pathCached s p c) :
    ((resolvePath env s p).2 = s ∧
      ∀ c, ¬ pathCached (resolvePath env s p).2 p c) ∨
    ((resolvePath env s p).2.fetchLog = s.fetchLog ++ [dottedName p] ∧
      ∃ c, pathCached (resolvePath env s p).2 p c) := by
  have henv₂ : env (p.1 ++ "." ++ p.2) = .okFetch := henv
  unfold resolvePath bigipGetattr
  cases hlook : lookupAttr s.attrs p.1 with
  | some o =>
      cases o with
      | ns n =>
          dsimp only
          have hname : n.name = p.1 := hnc p.1 n hlook
          have hfind : (n.clients.find? (fun q => q.1 == p.2)).map
              (fun q => q.2) = none := by
            cases hf : (n.clients.find? (fun q => q.1 == p.2)).map
                (fun q => q.2) with
            | none => rfl
            | some c => exact absurd ⟨n, hlook, hf⟩ (hun c)
          have hfind₀ : n.clients.find? (fun q => q.1 == p.2) = none := by
            cases hf : n.clients.find? (fun q => q.1 == p.2) with
            | none => rfl
            | some q => rw [hf] at hfind; cases hfind
          have hns : nsGetattrAt env s p.1 p.2 =
              (.ok (.client ⟨s.nextId, p.1 ++ "." ++ p.2⟩),
               { attrs := setAttrObj s.attrs p.1
                   (.ns ⟨n.id, n.name,
                     n.clients ++ [(p.2, ⟨s.nextId, p.1 ++ "." ++ p.2⟩)]⟩),
                 fetchLog := s.fetchLog ++ [p.1 ++ "." ++ p.2],
                 nextId := s.nextId + 1 }) := by
            unfold nsGetattrAt
            rw [hlook]
            dsimp only
            rw [if_neg (by simp [hp₃]), hfind]
            dsimp only
            rw [hname]
            unfold createClient
            rw [henv₂]
          rw [hns]
          dsimp only
          refine Or.inr ⟨rfl, ⟨s.nextId, p.1 ++ "." ++ p.2⟩,
            ⟨n.id, n.name,
              n.clients ++ [(p.2, ⟨s.nextId, p.1 ++ "." ++ p.2⟩)]⟩,
            lookupAttr_setAttrObj_self _ p.1 _, ?_⟩
          dsimp only
          rw [find?_append_of_none _ _ _ hfind₀]
          simp [List.find?]
      | client c₀ =>
          dsimp only
          refine Or.inl ⟨rfl, ?_⟩
          intro c hc
          exact hun c hc
      | field f₀ =>
          dsimp only
          refine Or.inl ⟨rfl, ?_⟩
          intro c hc
          exact hun c hc
      | dunderObj d₀ =>
          dsimp only
          refine Or.inl ⟨rfl, ?_⟩
          intro c hc
          exact hun c hc
  | none =>
      dsimp only
      rw [if_neg (by simp [hp₂]), if_neg (by simp [hp₁])]
      unfold bigipGetattrBase
      rw [hlook]
      dsimp only
      rw [if_neg (by simp [hp₂])]
      dsimp only
      have hns : nsGetattrAt env
          { attrs := setAttrObj s.attrs p.1 (.ns ⟨s.nextId, p.1, []⟩),
            fetchLog := s.fetchLog, nextId := s.nextId + 1 } p.1 p.2 =
          (.ok (.client ⟨s.nextId + 1, p.1 ++ "." ++ p.2⟩),
           { attrs := setAttrObj
               (setAttrObj s.attrs p.1 (.ns ⟨s.nextId, p.1, []⟩)) p.1
               (.ns ⟨s.nextId, p.1,
                 [(p.2, ⟨s.nextId + 1, p.1 ++ "." ++ p.2⟩)]⟩),
             fetchLog := s.fetchLog ++ [p.1 ++ "." ++ p.2],
             nextId := s.nextId + 1 + 1 }) := by
        unfold nsGetattrAt
        rw [lookupAttr_setAttrObj_self]
        dsimp only
        rw [if_neg (by simp [hp₃])]
        dsimp only [List.find?, Option.map]
        unfold createClient
        rw [henv₂]
        rfl
      rw [hns]
      dsimp only
      refine Or.inr ⟨rfl, ⟨s.nextId + 1, p.1 ++ "." ++ p.2⟩,
        ⟨s.nextId, p.1, [(p.2, ⟨s.nextId + 1, p.1 ++ "." ++ p.2⟩)]⟩,
        lookupAttr_setAttrObj_self _ p.1 _, ?_⟩
      simp [List.find?]

/-- At most one fetch of a given path's WSDL across any sequence of
hygienic, collision-free resolutions, from any state satisfying the
counting invariant. -/
theorem resolveSeq_count_le_one (env : Env) (p : String × String)
    (hp : pathHygienic p = true)
    (henv : env (dottedName p) = .okFetch) :
    ∀ (paths : List (String × String)) (s : BigipState),
    nameConsistent s →
    (∀ q ∈ paths, pathHygienic q = true ∧
        (dottedName q = dottedName p → q = p)) →
    s.fetchLog.count (dottedName p) ≤ 1 →
    (s.fetchLog.count (dottedName p) = 1 → ∃ c, pathCached s p c) →
    (resolveSeq env s paths).fetchLog.count (dottedName p) ≤ 1
  | [], s, _, _, hcount, _ => hcount
  | q :: rest, s, hnc, hpaths, hcount, hcache => by
      obtain ⟨hq, hinj⟩ := hpaths q (List.mem_cons_self _ _)
      have hq₁ : strContains q.1 '_' = false := by
        simp [pathHygienic] at hq
        exact hq.1.1
      have hq₂ : strStartsWith q.1 "__" = false := by
        simp [pathHygienic] at hq
        exact hq.1.2
      have hq₃ : strStartsWith q.2 "__" = false := by
        simp [pathHygienic] at hq
        exact hq.2
      have hrest := fun r hr => hpaths r (List.mem_cons_of_mem _ hr)
      simp only [resolveSeq]
      obtain ⟨hnc₂, hlog₂, hpres₂⟩ := resolvePath_step env s q hq₁ hq₂ hnc
      by_cases hqp : q = p
      · subst hqp
        by_cases hcached : ∃ c, pathCached s q c
        · obtain ⟨c, n, hn, hf⟩ := hcached
          have hhit := resolvePath_cached_hit env s q n c hn hf hq₃
          rw [hhit]
          exact resolveSeq_count_le_one env q hp henv rest s hnc hrest
            hcount hcache
        · push_neg at hcached
          have hzero : s.fetchLog.count (dottedName q) = 0 := by
            by_contra hnz
            have h1 : s.fetchLog.count (dottedName q) = 1 := by omega
            obtain ⟨c, hc⟩ := hcache h1
            exact hcached c hc
          rcases resolvePath_uncached env s q hq₂ hq₁ hq₃ henv hnc hcached
            with ⟨hs₂, _⟩ | ⟨hlog₃, hc₂⟩
          · rw [hs₂]
            exact resolveSeq_count_le_one env q hp henv rest s hnc hrest
              hcount hcache
          · refine resolveSeq_count_le_one env q hp henv rest _ hnc₂ hrest
              ?_ ?_
            · rw [hlog₃]
              simp [List.count_append, hzero]
            · intro _
              exact hc₂
      · have hdq : dottedName q ≠ dottedName p := fun h => hqp (hinj h)
        have hcount₂ : (resolvePath env s q).2.fetchLog.count (dottedName p)
            = s.fetchLog.count (dottedName p) := by
          rcases hlog₂ with h | h
          · rw [h]
          · rw [h]
            simp [List.count_append, List.count_cons, List.count_nil,
                  beq_eq_false_iff_ne.mpr hdq]
        refine resolveSeq_count_le_one env p hp henv rest _ hnc₂ hrest
          ?_ ?_
        · rw [hcount₂]
          exact hcount
        · intro h1
          rw [hcount₂] at h1
          obtain ⟨c, hc⟩ := hcache h1
          exact ⟨c, hpres₂ p c (fun h => hqp h.symm) hc⟩

/-- C3: resolving a valid dotted namespace path a second time
returns the object cached by the first resolution, with no state
change (no second fetch); and across any sequence of resolutions of
hygienic, collision-free paths on one facade instance, the WSDL of a
given servable path is fetched at most once. -/
theorem C3_memoized_resolution (env : Env) (p : String × String)
    (hp : pathHygienic p = true)
    (henv : env (dottedName p) = .okFetch) :
    (∀ s c s₁, resolvePath env s p = (.ok c, s₁) →
        resolvePath env s₁ p = (.ok c, s₁)) ∧
    (∀ paths, (∀ q ∈ paths, pathHygienic q = true ∧
        (dottedName q = dottedName p → q = p)) →
      (resolveSeq env freshBigip paths).fetchLog.count (dottedName p)
        ≤ 1) := by
  constructor
  · intro s c s₁ h
    obtain ⟨hdun, n, hns, hc⟩ := resolvePath_ok env s p c s₁ h
    exact resolvePath_cached_hit env s₁ p n c hns hc hdun
  · intro paths hpaths
    refine resolveSeq_count_le_one env p hp henv paths freshBigip
      ?_ hpaths (by simp [freshBigip]) ?_
    · intro k n hk
      simp [lookupAttr, List.find?, freshBigip] at hk
    · intro h1
      simp [freshBigip] at h1

/-- Witness for C3: resolving LocalLB.Pool on a facade that has
already resolved it returns the same client object unchanged, and
three resolutions (two of them the same path) fetch the WSDL once. -/
theorem C3_memoized_resolution_witness :
    resolvePath (fun _ => FetchOutcome.okFetch)
        ⟨[("LocalLB",
            .ns ⟨0, "LocalLB", [("Pool", ⟨1, "LocalLB.Pool"⟩)]⟩)],
          ["LocalLB.Pool"], 2⟩ ("LocalLB", "Pool") =
      (.ok ⟨1, "LocalLB.Pool"⟩,
       ⟨[("LocalLB",
           .ns ⟨0, "LocalLB", [("Pool", ⟨1, "LocalLB.Pool"⟩)]⟩)],
         ["LocalLB.Pool"], 2⟩) ∧
    (resolveSeq (fun _ => FetchOutcome.okFetch) freshBigip
        [("LocalLB", "Pool"), ("LocalLB", "Pool"),
         ("System", "Session")]).fetchLog.count "LocalLB.Pool" ≤ 1 := by
  have hmain := C3_memoized_resolution (fun _ => FetchOutcome.okFetch)
    ("LocalLB", "Pool") (by decide) rfl
  constructor
  · exact hmain.1 freshBigip ⟨1, "LocalLB.Pool"⟩
      ⟨[("LocalLB",
          .ns ⟨0, "LocalLB", [("Pool", ⟨1, "LocalLB.Pool"⟩)]⟩)],
        ["LocalLB.Pool"], 2⟩ (by decide)
  · exact hmain.2 [("LocalLB", "Pool"), ("LocalLB", "Pool"),
      ("System", "Session")] (by decide)

end Bigsuds